import Mathlib

/-!
Shallow embedding of the Market-Data-Handler core (C++ sources under
`src/`) used to settle the frozen claims about the specification.

Modelling conventions:
- `Price` (C++ `int64_t`) is `Int`; conversions through `uint64_t` are made
  explicit with `toU64` / `toI64`.
- `Quantity` and other unsigned 64-bit counters are `Nat` with an explicit
  `% 2^64` wherever the C++ arithmetic can wrap; `order_count`
  (`uint32_t`) wraps at `2^32`.
- `std::map<Price, OrderBookLevel>` is an association list kept sorted by
  strictly ascending key (the `setLevel` insertion preserves order, as the
  balanced tree does); `rbegin()`/`begin()` become last/head element.
- `std::string` / raw bytes are `List Nat` with each element a byte value.
- Wall-clock reads (`now()`, latency counters) are not modelled: they do
  not influence any book, queue, statistics or parser value a claim is
  about.  Timestamp parameters are kept in signatures as plain `Nat`.
- C++ `double` results (`get_imbalance`) are modelled as exact rationals
  `ℚ`; the claims settled about them are robust to IEEE rounding.
-/

def U64MOD : Nat := 2 ^ 64

def U32MOD : Nat := 2 ^ 32

/-- Embedding of `static_cast<uint64_t>(v)` for a signed 64-bit value. -/
def toU64 (v : Int) : Nat := (v % (U64MOD : Int)).toNat

/-- Embedding of `static_cast<int64_t>(n)` (two's complement) for `n` a
64-bit unsigned value. -/
def toI64 (n : Nat) : Int :=
  if n % U64MOD < 2 ^ 63 then ((n % U64MOD : Nat) : Int)
  else ((n % U64MOD : Nat) : Int) - (U64MOD : Int)

/-- `Side` enum from `market_data_types.hpp`. -/
inductive Side where
  | BUY
  | SELL
deriving DecidableEq

/-- `MessageType` enum from `market_data_types.hpp`. -/
inductive MessageType where
  | TRADE
  | QUOTE
  | ORDER_ADD
  | ORDER_MODIFY
  | ORDER_DELETE
  | BOOK_SNAPSHOT
  | HEARTBEAT
  | STATISTICS
deriving DecidableEq

/-- A `Symbol` is a 16-byte NUL-padded array; we model it as the list of
its byte values (length 16 when produced by `make_symbol`). -/
abbrev SymbolBytes := List Nat

/-- `make_symbol` from `market_data_types.hpp`: copies
`min(str.length(), 15)` bytes into a zero-initialised 16-byte array. -/
def make_symbol (s : List Nat) : SymbolBytes :=
  let len := min s.length 15
  s.take len ++ List.replicate (16 - len) 0

/-- `symbol_to_string` from `market_data_types.hpp`:
`std::string(sym.data(), strnlen(sym.data(), 16))`, i.e. the bytes before
the first NUL (all 16 when none is present). -/
def symbol_to_string (sym : SymbolBytes) : List Nat :=
  sym.takeWhile (fun b => b ≠ 0)

/-- `MarketTrade` (clock fields omitted, see header comment). -/
structure MarketTrade where
  symbol : SymbolBytes
  price : Int
  quantity : Nat
  aggressor_side : Side
  trade_id : Nat
deriving DecidableEq

/-- `MarketQuote` (clock fields omitted). -/
structure MarketQuote where
  symbol : SymbolBytes
  bid_price : Int
  ask_price : Int
  bid_size : Nat
  ask_size : Nat
deriving DecidableEq

/-- `OrderBookLevel` from `market_data_types.hpp`. -/
structure OrderBookLevel where
  price : Int
  quantity : Nat
  order_count : Nat
deriving DecidableEq

/-- The `OrderBookLevel(Price, Quantity)` constructor defaults
`order_count` to 1. -/
def OrderBookLevel.mk2 (p : Int) (q : Nat) : OrderBookLevel :=
  ⟨p, q, 1⟩

/-- `MarketStatistics` (symbol and `last_update` clock field omitted;
`volatility` is a derived quantity computed on demand). -/
structure MarketStatistics where
  last_price : Int
  high_price : Int
  low_price : Int
  open_price : Int
  vwap : Int
  total_volume : Nat
  trade_count : Nat
  bid_ask_spread : Int
deriving DecidableEq

def MarketStatistics.init : MarketStatistics :=
  ⟨0, 0, 0, 0, 0, 0, 0, 0⟩

/-- `MarketStatistics::update_trade` from `market_data_types.cpp` lines
8-32.  All `uint64_t` intermediates wrap at `2^64`; the division is C++
unsigned (truncating) division; the final store into the `Price` field is
the `uint64_t -> int64_t` cast. -/
def MarketStatistics.update_trade (s : MarketStatistics) (price : Int)
    (quantity : Nat) : MarketStatistics :=
  let s1 := { s with last_price := price }
  let s2 :=
    if s1.trade_count = 0 then
      { s1 with open_price := price, high_price := price, low_price := price }
    else
      { s1 with high_price := max s1.high_price price,
                low_price := min s1.low_price price }
  let old_total_value := (toU64 s2.vwap * s2.total_volume) % U64MOD
  let new_trade_value := (toU64 price * quantity) % U64MOD
  let total_volume := (s2.total_volume + quantity) % U64MOD
  let trade_count := (s2.trade_count + 1) % U64MOD
  let s3 := { s2 with total_volume := total_volume, trade_count := trade_count }
  if total_volume > 0 then
    { s3 with vwap := toI64 ((old_total_value + new_trade_value) % U64MOD / total_volume) }
  else s3

/-- `MarketStatistics::update_quote` from `market_data_types.cpp`. -/
def MarketStatistics.update_quote (s : MarketStatistics) (bid ask : Int) :
    MarketStatistics :=
  { s with bid_ask_spread := ask - bid }

/-- Sorted association list standing for `std::map<Price, OrderBookLevel>`. -/
abbrev PriceLevelMap := List (Int × OrderBookLevel)

/-- `levels.find(p)` on the price map. -/
def findLevel (m : PriceLevelMap) (p : Int) : Option OrderBookLevel :=
  match m with
  | [] => none
  | (k, w) :: rest => if p = k then some w else findLevel rest p

/-- `levels[p] = v` insertion or replacement, preserving ascending key
order exactly as the `std::map` does. -/
def setLevel (m : PriceLevelMap) (p : Int) (v : OrderBookLevel) :
    PriceLevelMap :=
  match m with
  | [] => [(p, v)]
  | (k, w) :: rest =>
    if p < k then (p, v) :: (k, w) :: rest
    else if p = k then (p, v) :: rest
    else (k, w) :: setLevel rest p v

/-- `levels.erase(it)` for the entry with key `p` (keys are unique). -/
def eraseLevel (m : PriceLevelMap) (p : Int) : PriceLevelMap :=
  match m with
  | [] => []
  | (k, w) :: rest => if p = k then rest else (k, w) :: eraseLevel rest p

/-- In-place mutation `it->second = f(it->second)` of the entry at key
`p`, leaving the key structure untouched. -/
def updLevel (m : PriceLevelMap) (p : Int) (f : OrderBookLevel → OrderBookLevel) :
    PriceLevelMap :=
  match m with
  | [] => []
  | (k, w) :: rest =>
    if p = k then (k, f w) :: rest else (k, w) :: updLevel rest p f

/-- `OrderBook` state: the two sides, the cached best prices, and the
statistics block.  Latency/update counters (pure clock metrics) omitted. -/
structure OrderBook where
  symbol : SymbolBytes
  bids : PriceLevelMap
  asks : PriceLevelMap
  cached_best_bid : Int
  cached_best_ask : Int
  statistics : MarketStatistics
deriving DecidableEq

/-- `OrderBook::OrderBook(symbol)`: empty sides, zero caches, default
statistics. -/
def OrderBook.new (sym : SymbolBytes) : OrderBook :=
  ⟨sym, [], [], 0, 0, MarketStatistics.init⟩

/-- `OrderBook::update_best_prices` (order_book.cpp lines 286-300):
`bids_.rbegin()->first` is the last (greatest) key of the sorted bid map,
`asks_.begin()->first` the first (least) key of the ask map; 0 when the
side is empty. -/
def OrderBook.update_best_prices (b : OrderBook) : OrderBook :=
  let best_bid :=
    match b.bids.getLast? with
    | some kv => kv.1
    | none => 0
  let best_ask :=
    match b.asks.head? with
    | some kv => kv.1
    | none => 0
  { b with cached_best_bid := best_bid, cached_best_ask := best_ask }

/-- `OrderBook::find_or_create_level` (order_book.cpp lines 306-312):
when the price is absent it emplaces `OrderBookLevel(price, 0)`; that
two-argument constructor leaves the defaulted `order_count` at 1, so a
freshly created level is `{price, 0, 1}`. -/
def find_or_create_level (m : PriceLevelMap) (p : Int) : PriceLevelMap :=
  match findLevel m p with
  | some _ => m
  | none => setLevel m p (OrderBookLevel.mk2 p 0)

/-- `OrderBook::add_order` (order_book.cpp lines 13-28).  The latency
metric updates are pure clock reads and are omitted.  `quantity +=`
wraps at `2^64`, `order_count++` at `2^32`. -/
def OrderBook.add_order (b : OrderBook) (price : Int) (quantity : Nat)
    (side : Side) (_timestamp : Nat) : OrderBook :=
  let bump := fun (m : PriceLevelMap) =>
    updLevel (find_or_create_level m price) price
      (fun lv => { lv with quantity := (lv.quantity + quantity) % U64MOD,
                           order_count := (lv.order_count + 1) % U32MOD })
  let b1 :=
    match side with
    | Side.BUY => { b with bids := bump b.bids }
    | Side.SELL => { b with asks := bump b.asks }
  b1.update_best_prices

/-- The first half of `OrderBook::modify_order` (order_book.cpp lines
30-46): reduce the level at `old_price` by `new_quantity` when it exists
and holds at least that much, decrement its order count (floored at 0),
and erase it when its quantity reaches 0. -/
def reduceLevelForModify (m : PriceLevelMap) (p : Int) (q : Nat) :
    PriceLevelMap :=
  match findLevel m p with
  | none => m
  | some lv =>
    if lv.quantity ≥ q then
      let q2 := lv.quantity - q
      let c2 := if lv.order_count > 0 then lv.order_count - 1 else lv.order_count
      if q2 = 0 then eraseLevel m p
      else updLevel m p (fun _ => { lv with quantity := q2, order_count := c2 })
    else m

/-- `OrderBook::modify_order` (order_book.cpp lines 30-50): reduce the old
level, then `add_order(new_price, new_quantity, side, ts)`. -/
def OrderBook.modify_order (b : OrderBook) (old_price new_price : Int)
    (new_quantity : Nat) (side : Side) (timestamp : Nat) : OrderBook :=
  let b1 :=
    match side with
    | Side.BUY => { b with bids := reduceLevelForModify b.bids old_price new_quantity }
    | Side.SELL => { b with asks := reduceLevelForModify b.asks old_price new_quantity }
  b1.add_order new_price new_quantity side timestamp

/-- `OrderBook::delete_order` (order_book.cpp lines 52-70).  When the
price is absent the book is untouched (no `update_best_prices` either);
when present but holding less than `quantity` the level is left exactly
as it was; otherwise the quantity is subtracted, the order count
decremented (floored at 0), and the level erased when its quantity
reaches 0. -/
def deleteFromLevels (m : PriceLevelMap) (p : Int) (q : Nat)
    (lv : OrderBookLevel) : PriceLevelMap :=
  if lv.quantity ≥ q then
    let q2 := lv.quantity - q
    let c2 := if lv.order_count > 0 then lv.order_count - 1 else lv.order_count
    if q2 = 0 then eraseLevel m p
    else updLevel m p (fun _ => { lv with quantity := q2, order_count := c2 })
  else m

def OrderBook.delete_order (b : OrderBook) (price : Int) (quantity : Nat)
    (side : Side) (_timestamp : Nat) : OrderBook :=
  match side with
  | Side.BUY =>
    match findLevel b.bids price with
    | none => b
    | some lv =>
      OrderBook.update_best_prices
        { b with bids := deleteFromLevels b.bids price quantity lv }
  | Side.SELL =>
    match findLevel b.asks price with
    | none => b
    | some lv =>
      OrderBook.update_best_prices
        { b with asks := deleteFromLevels b.asks price quantity lv }

/-- `OrderBook::update_trade` (order_book.cpp lines 72-75): statistics
only. -/
def OrderBook.update_trade (b : OrderBook) (t : MarketTrade) : OrderBook :=
  { b with statistics := b.statistics.update_trade t.price t.quantity }

/-- `OrderBook::update_quote` (order_book.cpp lines 77-94): clears both
sides, inserts one level per side when its price and size are positive
(the `OrderBookLevel(price, size)` constructor sets `order_count = 1`),
refreshes the caches, and updates the statistics spread. -/
def OrderBook.update_quote (b : OrderBook) (q : MarketQuote) : OrderBook :=
  let bids : PriceLevelMap :=
    if q.bid_price > 0 ∧ q.bid_size > 0 then
      [(q.bid_price, OrderBookLevel.mk2 q.bid_price q.bid_size)]
    else []
  let asks : PriceLevelMap :=
    if q.ask_price > 0 ∧ q.ask_size > 0 then
      [(q.ask_price, OrderBookLevel.mk2 q.ask_price q.ask_size)]
    else []
  let b1 := OrderBook.update_best_prices { b with bids := bids, asks := asks }
  { b1 with statistics := b1.statistics.update_quote q.bid_price q.ask_price }

/-- `OrderBook::update_level2` (order_book.cpp lines 96-114): full
refresh; only input levels with positive quantity are inserted, keyed by
their price. -/
def OrderBook.update_level2 (b : OrderBook) (bids asks : List OrderBookLevel)
    (_timestamp : Nat) : OrderBook :=
  let build := fun (ls : List OrderBookLevel) =>
    ls.foldl (fun m lv => if lv.quantity > 0 then setLevel m lv.price lv else m)
      ([] : PriceLevelMap)
  OrderBook.update_best_prices { b with bids := build bids, asks := build asks }

/-- `OrderBook::get_bids(depth)` (order_book.cpp lines 136-146): walk the
bid map from the highest price down, collecting up to `depth` levels. -/
def OrderBook.get_bids (b : OrderBook) (depth : Nat) : List OrderBookLevel :=
  (b.bids.reverse.take depth).map (fun kv => kv.2)

/-- `OrderBook::get_asks(depth)` (order_book.cpp lines 148-158). -/
def OrderBook.get_asks (b : OrderBook) (depth : Nat) : List OrderBookLevel :=
  (b.asks.take depth).map (fun kv => kv.2)

/-- The `std::accumulate` over level quantities in `get_imbalance`:
`uint64_t` sum, wrapping at each addition. -/
def accumulateQty (ls : List OrderBookLevel) : Nat :=
  ls.foldl (fun s lv => (s + lv.quantity) % U64MOD) 0

/-- `OrderBook::get_imbalance` (order_book.cpp lines 165-183).  The C++
`bid_volume - ask_volume` is unsigned 64-bit subtraction, so it wraps
modulo `2^64`; the double division is modelled as the exact rational. -/
def OrderBook.get_imbalance (b : OrderBook) : ℚ :=
  let top_bids := b.get_bids 5
  let top_asks := b.get_asks 5
  if top_bids = [] ∨ top_asks = [] then 0
  else
    let bid_volume := accumulateQty top_bids
    let ask_volume := accumulateQty top_asks
    let total_volume := (bid_volume + ask_volume) % U64MOD
    if total_volume = 0 then 0
    else mkRat (((bid_volume + U64MOD - ask_volume) % U64MOD : Nat) : Int)
      total_volume

/-- One mutating operation on a single book, mirroring the public
mutators exercised by the invariant claims. -/
inductive BookOp where
  | add (price : Int) (qty : Nat) (side : Side) (ts : Nat)
  | modify (old_price new_price : Int) (new_qty : Nat) (side : Side) (ts : Nat)
  | del (price : Int) (qty : Nat) (side : Side) (ts : Nat)
  | quote (q : MarketQuote)
  | snapshot (bids asks : List OrderBookLevel) (ts : Nat)
deriving DecidableEq

def applyOp (b : OrderBook) (op : BookOp) : OrderBook :=
  match op with
  | BookOp.add p q s ts => b.add_order p q s ts
  | BookOp.modify po pn q s ts => b.modify_order po pn q s ts
  | BookOp.del p q s ts => b.delete_order p q s ts
  | BookOp.quote q => b.update_quote q
  | BookOp.snapshot bs as ts => b.update_level2 bs as ts

def applyOps (b : OrderBook) (ops : List BookOp) : OrderBook :=
  ops.foldl applyOp b

/-- The quantity an operation can feed into the book (used to bound the
accumulated level quantities below `2^64`). -/
def opBudget (op : BookOp) : Nat :=
  match op with
  | BookOp.add _ q _ _ => q
  | BookOp.modify _ _ q _ _ => q
  | BookOp.del _ _ _ _ => 0
  | BookOp.quote q => q.bid_size + q.ask_size
  | BookOp.snapshot bs as _ =>
    (bs.map (fun lv => lv.quantity)).sum + (as.map (fun lv => lv.quantity)).sum

/-- An operation whose directly added quantity is positive (`add` and
`modify`; the other operations guard positivity themselves). -/
def posOp (op : BookOp) : Prop :=
  match op with
  | BookOp.add _ q _ _ => 0 < q
  | BookOp.modify _ _ q _ _ => 0 < q
  | _ => True

instance (op : BookOp) : Decidable (posOp op) := by
  cases op <;> simp [posOp] <;> infer_instance

/-- `MarketDataMessage` (sequence number and clock fields omitted). -/
structure MarketDataMessage where
  type : MessageType
  trade_data : MarketTrade
  quote_data : MarketQuote
deriving DecidableEq

/-- Book map key: `symbol_to_string` of the symbol, as in the
`std::unordered_map<std::string, ...>` of `OrderBookManager`. -/
abbrev BookKey := List Nat

def lookupBook (l : List (BookKey × OrderBook)) (k : BookKey) :
    Option OrderBook :=
  match l with
  | [] => none
  | (k0, b) :: rest => if k = k0 then some b else lookupBook rest k

def replaceBook (l : List (BookKey × OrderBook)) (k : BookKey)
    (b : OrderBook) : List (BookKey × OrderBook) :=
  match l with
  | [] => []
  | (k0, b0) :: rest =>
    if k = k0 then (k0, b) :: rest else (k0, b0) :: replaceBook rest k b

/-- `OrderBookManager` state (mutexes are synchronisation only). -/
structure OrderBookManager where
  books : List (BookKey × OrderBook)
  total_updates : Nat
  active_symbols : Nat
deriving DecidableEq

def OrderBookManager.init : OrderBookManager := ⟨[], 0, 0⟩

/-- `OrderBookManager::update_trade` (order_book.cpp lines 356-360):
`get_or_create_book` then `book->update_trade(trade)` and a relaxed
`total_updates` increment.  Creation bumps `active_symbols`. -/
def OrderBookManager.update_trade (mgr : OrderBookManager)
    (t : MarketTrade) : OrderBookManager :=
  let key := symbol_to_string t.symbol
  match lookupBook mgr.books key with
  | some b =>
    { mgr with books := replaceBook mgr.books key (b.update_trade t),
               total_updates := (mgr.total_updates + 1) % U64MOD }
  | none =>
    { mgr with books := mgr.books ++ [(key, (OrderBook.new t.symbol).update_trade t)],
               active_symbols := (mgr.active_symbols + 1) % U64MOD,
               total_updates := (mgr.total_updates + 1) % U64MOD }

/-- `OrderBookManager::update_quote` (order_book.cpp lines 362-366). -/
def OrderBookManager.update_quote (mgr : OrderBookManager)
    (q : MarketQuote) : OrderBookManager :=
  let key := symbol_to_string q.symbol
  match lookupBook mgr.books key with
  | some b =>
    { mgr with books := replaceBook mgr.books key (b.update_quote q),
               total_updates := (mgr.total_updates + 1) % U64MOD }
  | none =>
    { mgr with books := mgr.books ++ [(key, (OrderBook.new q.symbol).update_quote q)],
               active_symbols := (mgr.active_symbols + 1) % U64MOD,
               total_updates := (mgr.total_updates + 1) % U64MOD }

/-- `OrderBookManager::process_message` (order_book.cpp lines 368-380):
only `TRADE` and `QUOTE` have cases; every other `MessageType` falls into
the empty `default` branch. -/
def OrderBookManager.process_message (mgr : OrderBookManager)
    (msg : MarketDataMessage) : OrderBookManager :=
  match msg.type with
  | MessageType.TRADE => mgr.update_trade msg.trade_data
  | MessageType.QUOTE => mgr.update_quote msg.quote_data
  | _ => mgr

/-- `SPSCQueue<T, Size>` cursor-and-buffer state (lock_free_queue.hpp).
`head`/`tail` are the `size_t` cursors, always stored already masked, so
they stay below `Size`. -/
structure SPSCQueue (α : Type) (Size : Nat) where
  head : Nat
  tail : Nat
  buffer : List α
deriving DecidableEq

def SPSCQueue.init (α : Type) (a : α) (Size : Nat) : SPSCQueue α Size :=
  ⟨0, 0, List.replicate Size a⟩

/-- `SPSCQueue::try_push` (lock_free_queue.hpp lines 39-54).  The C++
`(current_tail + 1) & mask_` equals `(current_tail + 1) % Size` because
`Size` is a power of two. -/
def SPSCQueue.try_push {α : Type} {Size : Nat} (q : SPSCQueue α Size)
    (item : α) : Bool × SPSCQueue α Size :=
  let next_tail := (q.tail + 1) % Size
  if next_tail = q.head then (false, q)
  else (true, { q with buffer := q.buffer.set q.tail item, tail := next_tail })

/-- `SPSCQueue::try_pop` (lock_free_queue.hpp lines 70-84). -/
def SPSCQueue.try_pop {α : Type} [Inhabited α] {Size : Nat}
    (q : SPSCQueue α Size) : Option α × SPSCQueue α Size :=
  if q.head = q.tail then (none, q)
  else (some (q.buffer.getD q.head default),
        { q with head := (q.head + 1) % Size })

/-- `SPSCQueue::size` (lock_free_queue.hpp lines 91-95): `(t - h) & mask_`
with `size_t` subtraction, i.e. `((t + 2^64 - h) mod 2^64) mod Size`. -/
def SPSCQueue.size {α : Type} {Size : Nat} (q : SPSCQueue α Size) : Nat :=
  ((q.tail + U64MOD - q.head) % U64MOD) % Size

/-- `MarketDataQueue` (lock_free_queue.hpp lines 174-205): an `SPSCQueue`
plus the dropped-message counter.  The source instantiates `Size =
131072`; the size stays a parameter here, as in the underlying template. -/
structure MarketDataQueue (α : Type) (Size : Nat) where
  queue : SPSCQueue α Size
  dropped_messages : Nat
deriving DecidableEq

def MarketDataQueue.init (α : Type) (a : α) (Size : Nat) :
    MarketDataQueue α Size :=
  ⟨SPSCQueue.init α a Size, 0⟩

/-- `MarketDataQueue::enqueue` (lock_free_queue.hpp lines 180-186): a
rejected push increments `dropped_messages` by one. -/
def MarketDataQueue.enqueue {α : Type} {Size : Nat}
    (q : MarketDataQueue α Size) (msg : α) : Bool × MarketDataQueue α Size :=
  match q.queue.try_push msg with
  | (false, qq) => (false, ⟨qq, (q.dropped_messages + 1) % U64MOD⟩)
  | (true, qq) => (true, { q with queue := qq })

/-- `MarketDataQueue::dequeue`. -/
def MarketDataQueue.dequeue {α : Type} [Inhabited α] {Size : Nat}
    (q : MarketDataQueue α Size) : Option α × MarketDataQueue α Size :=
  match q.queue.try_pop with
  | (o, qq) => (o, { q with queue := qq })

/-- Push the items in order, collecting each push result. -/
def pushAll {α : Type} {Size : Nat} (q : MarketDataQueue α Size)
    (xs : List α) : List Bool × MarketDataQueue α Size :=
  match xs with
  | [] => ([], q)
  | x :: rest =>
    match q.enqueue x with
    | (r, q1) =>
      match pushAll q1 rest with
      | (rs, q2) => (r :: rs, q2)

/-- `FixParser::calculate_checksum` (market_simulator.cpp lines 549-555):
a `uint32_t` running sum of the byte values, reduced modulo 256. -/
def calculate_checksum (message : List Nat) : Nat :=
  (message.foldl (fun s c => (s + c) % U32MOD) 0) % 256

/-- `FixParser::validate_checksum` (market_simulator.cpp lines 525-528):
stubbed to `return true` unconditionally. -/
def validate_checksum (_message : List Nat) : Bool :=
  true

/-- Flip bit `k` of the byte `b`. -/
def flipBit (k b : Nat) : Nat :=
  if Nat.testBit b k then b - 2 ^ k else b + 2 ^ k

/-- Flip bit `k` of the byte at index `i` of a frame. -/
def flipByteAt (msg : List Nat) (i k : Nat) : List Nat :=
  msg.set i (flipBit k (msg.getD i 0))

/-- The side selected by `(side == Side::BUY) ? bids_ : asks_`. -/
def sideMap (b : OrderBook) (side : Side) : PriceLevelMap :=
  match side with
  | Side.BUY => b.bids
  | Side.SELL => b.asks

/-- The `std::map` representation invariant: keys strictly ascending. -/
abbrev SortedMap (m : PriceLevelMap) : Prop :=
  m.Pairwise (fun a b => a.1 < b.1)

/-- Fold a trade tape through `MarketStatistics::update_trade` starting
from default-initialised statistics. -/
def applyTrades (ts : List (Int × Nat)) : MarketStatistics :=
  ts.foldl (fun s pq => s.update_trade pq.1 pq.2) MarketStatistics.init

/-- Helper levels for concrete scenarios: `n` levels of quantity `q` at
the given prices, one order each. -/
def mkLevels (q : Nat) (ps : List Int) : List OrderBookLevel :=
  ps.map (fun p => ⟨p, q, 1⟩)

/-- The best-bid cache description used by the invariant claims: 0 on an
empty side, otherwise a key of the bid map that dominates every key. -/
def bestBidOK (b : OrderBook) : Prop :=
  (b.bids = [] → b.cached_best_bid = 0) ∧
  (b.bids ≠ [] → (∃ kv ∈ b.bids, kv.1 = b.cached_best_bid) ∧
    ∀ kv ∈ b.bids, kv.1 ≤ b.cached_best_bid)

/-- The best-ask cache description: 0 on an empty side, otherwise a key
of the ask map below every key. -/
def bestAskOK (b : OrderBook) : Prop :=
  (b.asks = [] → b.cached_best_ask = 0) ∧
  (b.asks ≠ [] → (∃ kv ∈ b.asks, kv.1 = b.cached_best_ask) ∧
    ∀ kv ∈ b.asks, b.cached_best_ask ≤ kv.1)

/-- Every level stored in the book has strictly positive quantity. -/
def allLevelsPos (b : OrderBook) : Prop :=
  (∀ kv ∈ b.bids, 0 < kv.2.quantity) ∧ (∀ kv ∈ b.asks, 0 < kv.2.quantity)

/-- Every stored level quantity is at most `n`. -/
def levelsBounded (b : OrderBook) (n : Nat) : Prop :=
  (∀ kv ∈ b.bids, kv.2.quantity ≤ n) ∧ (∀ kv ∈ b.asks, kv.2.quantity ≤ n)

/-- Total quantity an operation tape can feed into the book. -/
def opsBudget (ops : List BookOp) : Nat :=
  (ops.map opBudget).sum

/-- Exact total traded value of a trade tape. -/
def tapeValue (ts : List (Int × Nat)) : Nat :=
  (ts.map (fun pq => pq.1.toNat * pq.2)).sum

/-- Exact total traded volume of a trade tape. -/
def tapeVolume (ts : List (Int × Nat)) : Nat :=
  (ts.map (fun pq => pq.2)).sum

/-- The AAPL symbol used by the literal spec scenarios. -/
def aaplSym : SymbolBytes := make_symbol [65, 65, 80, 76]

/-- Scenario 1 quote: bid 150.00, ask 150.02, sizes 500/750 (prices in
fixed-point scale 10000). -/
def scenarioQuote : MarketQuote := ⟨aaplSym, 1500000, 1500200, 500, 750⟩

/-- The book after scenario 1. -/
def scenarioBook : OrderBook := (OrderBook.new aaplSym).update_quote scenarioQuote

/-- Scenario 2 trade: price 150.01, quantity 200, aggressor BUY. -/
def scenarioTrade : MarketTrade := ⟨aaplSym, 1500100, 200, Side.BUY, 1⟩

/-- Five bid levels of 500 and five ask levels of 1000: scenario 3 with
the sides swapped, so the ask depth dominates. -/
def imbalanceBook : OrderBook :=
  (OrderBook.new aaplSym).update_level2
    (mkLevels 500 [10, 11, 12, 13, 14]) (mkLevels 1000 [20, 21, 22, 23, 24]) 0

/-- Scenario 3 proper: five bid levels of 1000 and five ask levels of
500, so the bid depth dominates. -/
def depthBook : OrderBook :=
  (OrderBook.new aaplSym).update_level2
    (mkLevels 1000 [10, 11, 12, 13, 14]) (mkLevels 500 [20, 21, 22, 23, 24]) 0

/-- Plain (unwrapped) total quantity of a level list. -/
def qtySum (ls : List OrderBookLevel) : Nat :=
  (ls.map (fun lv => lv.quantity)).sum

/-- A book holding a single bid level of quantity 5 at 100, then hit by
two deletes of 1: the remaining level has `order_count = 0`. -/
def countBook : OrderBook :=
  (((OrderBook.new aaplSym).add_order 100 5 Side.BUY 0).delete_order
    100 1 Side.BUY 0).delete_order 100 1 Side.BUY 0

/-- A book holding a bid level of quantity 3 at 100, then hit by a delete
of 10 (under-sized level). -/
def clampBook : OrderBook :=
  ((OrderBook.new aaplSym).add_order 100 3 Side.BUY 0).delete_order
    100 10 Side.BUY 0

/-- An ORDER_ADD message carrying trade payload for AAPL. -/
def orderAddMsg : MarketDataMessage :=
  ⟨MessageType.ORDER_ADD, ⟨aaplSym, 1500000, 100, Side.BUY, 1⟩,
   ⟨aaplSym, 0, 0, 0, 0⟩⟩

/-- A TRADE message carrying the scenario trade. -/
def tradeMsg : MarketDataMessage :=
  ⟨MessageType.TRADE, ⟨aaplSym, 1500100, 200, Side.BUY, 1⟩,
   ⟨aaplSym, 0, 0, 0, 0⟩⟩

/-- Trade tape for the VWAP drift counterexample. -/
def driftTape : List (Int × Nat) := [(3, 1), (0, 2), (2, 3), (0, 1)]

/-- Trade tape whose value product overflows 64 bits in one step. -/
def overflowTape : List (Int × Nat) := [(2 ^ 62, 8)]

/-- The empty wrapping queue of capacity 8 from the back-pressure
scenario. -/
def queue8 : MarketDataQueue Unit 8 := MarketDataQueue.init Unit () 8

/-- A well-formed tag-value frame body `8=FIX.4.2<SOH>35=0<SOH>` as byte
values; its modulo-256 checksum is 245. -/
def fixBody : List Nat :=
  [56, 61, 70, 73, 88, 46, 52, 46, 50, 1, 51, 53, 61, 48, 1]

/-- The frame above with its trailing checksum field `10=245<SOH>`. -/
def fixFrame : List Nat := fixBody ++ [49, 48, 61, 50, 52, 53, 1]

theorem findLevel_eq_none_iff {m : PriceLevelMap} {p : Int} :
    findLevel m p = none ↔ ∀ w, (p, w) ∉ m := by
  induction m with
  | nil => simp [findLevel]
  | cons kw rest ih =>
    obtain ⟨k, w⟩ := kw
    by_cases h : p = k
    · subst h
      simp only [findLevel, if_pos rfl, List.mem_cons]
      constructor
      · intro hfalse
        exact absurd hfalse (by simp)
      · intro hall
        exact absurd (Or.inl rfl) (hall w)
    · simp only [findLevel, if_neg h, ih, List.mem_cons]
      constructor
      · intro hall w hw
        rcases hw with hw | hw
        · exact h (congrArg Prod.fst hw)
        · exact hall w hw
      · intro hall w hw
        exact hall w (Or.inr hw)

theorem mem_setLevel {m : PriceLevelMap} {p : Int} {v : OrderBookLevel}
    {kv : Int × OrderBookLevel} (h : kv ∈ setLevel m p v) :
    kv = (p, v) ∨ kv ∈ m := by
  induction m with
  | nil => simpa [setLevel] using h
  | cons kw rest ih =>
    obtain ⟨k, w⟩ := kw
    by_cases h1 : p < k
    · simp only [setLevel, if_pos h1, List.mem_cons] at h
      rcases h with h | h | h
      · exact Or.inl h
      · exact Or.inr (by simp [h])
      · exact Or.inr (List.mem_cons_of_mem _ h)
    · by_cases h2 : p = k
      · simp only [setLevel, if_neg h1, if_pos h2, List.mem_cons] at h
        rcases h with h | h
        · exact Or.inl (by simp [h, h2])
        · exact Or.inr (List.mem_cons_of_mem _ h)
      · simp only [setLevel, if_neg h1, if_neg h2, List.mem_cons] at h
        rcases h with h | h
        · exact Or.inr (by simp [h])
        · rcases ih h with h3 | h3
          · exact Or.inl h3
          · exact Or.inr (List.mem_cons_of_mem _ h3)

theorem mem_eraseLevel {m : PriceLevelMap} {p : Int}
    {kv : Int × OrderBookLevel} (h : kv ∈ eraseLevel m p) : kv ∈ m := by
  induction m with
  | nil => simpa [eraseLevel] using h
  | cons kw rest ih =>
    obtain ⟨k, w⟩ := kw
    by_cases h1 : p = k
    · simp only [eraseLevel, if_pos h1] at h
      exact List.mem_cons_of_mem _ h
    · simp only [eraseLevel, if_neg h1, List.mem_cons] at h
      rcases h with h | h
      · exact List.mem_cons.2 (Or.inl h)
      · exact List.mem_cons_of_mem _ (ih h)

theorem mem_updLevel {m : PriceLevelMap} {p : Int}
    {f : OrderBookLevel → OrderBookLevel} {kv : Int × OrderBookLevel}
    (h : kv ∈ updLevel m p f) :
    kv ∈ m ∨ ∃ w, (p, w) ∈ m ∧ kv = (p, f w) := by
  induction m with
  | nil => simpa [updLevel] using h
  | cons kw rest ih =>
    obtain ⟨k, w⟩ := kw
    by_cases h1 : p = k
    · subst h1
      simp only [updLevel, if_pos, List.mem_cons] at h
      rcases h with h | h
      · exact Or.inr ⟨w, (by simp), h⟩
      · exact Or.inl (List.mem_cons_of_mem _ h)
    · simp only [updLevel, if_neg h1, List.mem_cons] at h
      rcases h with h | h
      · exact Or.inl (by simp [h])
      · rcases ih h with h2 | ⟨w2, hw2, hkv⟩
        · exact Or.inl (List.mem_cons_of_mem _ h2)
        · exact Or.inr ⟨w2, List.mem_cons_of_mem _ hw2, hkv⟩

theorem keys_updLevel (m : PriceLevelMap) (p : Int)
    (f : OrderBookLevel → OrderBookLevel) :
    (updLevel m p f).map Prod.fst = m.map Prod.fst := by
  induction m with
  | nil => simp [updLevel]
  | cons kw rest ih =>
    obtain ⟨k, w⟩ := kw
    by_cases h1 : p = k
    · simp [updLevel, if_pos h1]
    · simp [updLevel, if_neg h1, ih]

theorem sortedMap_iff_keys {m : PriceLevelMap} :
    SortedMap m ↔ (m.map Prod.fst).Pairwise (fun a b => a < b) := by
  unfold SortedMap
  exact (List.pairwise_map).symm

theorem sorted_setLevel {m : PriceLevelMap} {p : Int} {v : OrderBookLevel}
    (hs : SortedMap m) : SortedMap (setLevel m p v) := by
  induction m with
  | nil => simp [setLevel, SortedMap]
  | cons kw rest ih =>
    obtain ⟨k, w⟩ := kw
    rcases List.pairwise_cons.1 hs with ⟨hk, hrest⟩
    by_cases h1 : p < k
    · simp only [setLevel, if_pos h1]
      refine List.pairwise_cons.2 ⟨?_, hs⟩
      intro kv hkv
      rcases List.mem_cons.1 hkv with h | h
      · simpa [h] using h1
      · exact lt_trans h1 (hk kv h)
    · by_cases h2 : p = k
      · simp only [setLevel, if_neg h1, if_pos h2]
        exact List.pairwise_cons.2 ⟨by simpa [h2] using hk, hrest⟩
      · simp only [setLevel, if_neg h1, if_neg h2]
        refine List.pairwise_cons.2 ⟨?_, ih hrest⟩
        intro kv hkv
        rcases mem_setLevel hkv with h | h
        · have : k < p := by omega
          simpa [h] using this
        · exact hk kv h

theorem sorted_eraseLevel {m : PriceLevelMap} {p : Int}
    (hs : SortedMap m) : SortedMap (eraseLevel m p) := by
  induction m with
  | nil => simpa [eraseLevel] using hs
  | cons kw rest ih =>
    obtain ⟨k, w⟩ := kw
    rcases List.pairwise_cons.1 hs with ⟨hk, hrest⟩
    by_cases h1 : p = k
    · simpa [eraseLevel, if_pos h1] using hrest
    · simp only [eraseLevel, if_neg h1]
      refine List.pairwise_cons.2 ⟨?_, ih hrest⟩
      intro kv hkv
      exact hk kv (mem_eraseLevel hkv)

theorem sorted_updLevel {m : PriceLevelMap} {p : Int}
    {f : OrderBookLevel → OrderBookLevel} (hs : SortedMap m) :
    SortedMap (updLevel m p f) := by
  rw [sortedMap_iff_keys, keys_updLevel]
  exact sortedMap_iff_keys.1 hs

theorem sorted_find_or_create {m : PriceLevelMap} {p : Int}
    (hs : SortedMap m) : SortedMap (find_or_create_level m p) := by
  unfold find_or_create_level
  cases findLevel m p with
  | none => exact sorted_setLevel hs
  | some lv => exact hs

theorem sorted_buildLevels (ls : List OrderBookLevel) (init : PriceLevelMap)
    (hs : SortedMap init) :
    SortedMap (ls.foldl
      (fun m lv => if lv.quantity > 0 then setLevel m lv.price lv else m) init) := by
  induction ls generalizing init with
  | nil => simpa using hs
  | cons lv rest ih =>
    simp only [List.foldl_cons]
    by_cases h : lv.quantity > 0
    · simp only [if_pos h]
      exact ih _ (sorted_setLevel hs)
    · simp only [if_neg h]
      exact ih _ hs

theorem key_le_getLast {m : PriceLevelMap} (hs : SortedMap m)
    {kv0 : Int × OrderBookLevel} (h : m.getLast? = some kv0) :
    ∀ kv ∈ m, kv.1 ≤ kv0.1 := by
  induction m with
  | nil => simp at h
  | cons x rest ih =>
    rcases List.pairwise_cons.1 hs with ⟨hx, hrest⟩
    cases rest with
    | nil =>
      simp only [List.getLast?_singleton, Option.some.injEq] at h
      intro kv hkv
      rcases List.mem_singleton.1 hkv with rfl
      simp [← h]
    | cons y rest2 =>
      rw [List.getLast?_cons_cons] at h
      intro kv hkv
      rcases List.mem_cons.1 hkv with rfl | hkv2
      · have hmem : kv0 ∈ y :: rest2 := List.mem_of_getLast?_eq_some h
        exact le_of_lt (hx kv0 hmem)
      · exact ih hrest h kv hkv2

theorem head_key_le {m : PriceLevelMap} (hs : SortedMap m)
    {kv0 : Int × OrderBookLevel} (h : m.head? = some kv0) :
    ∀ kv ∈ m, kv0.1 ≤ kv.1 := by
  cases m with
  | nil => simp at h
  | cons x rest =>
    simp only [List.head?_cons, Option.some.injEq] at h
    subst h
    rcases List.pairwise_cons.1 hs with ⟨hx, _⟩
    intro kv hkv
    rcases List.mem_cons.1 hkv with rfl | hkv2
    · exact le_refl _
    · exact le_of_lt (hx kv hkv2)

theorem bestBidOK_update_best {b : OrderBook} (hs : SortedMap b.bids) :
    bestBidOK b.update_best_prices := by
  unfold bestBidOK OrderBook.update_best_prices
  cases hb : b.bids.getLast? with
  | none =>
    have : b.bids = [] := List.getLast?_eq_none_iff.1 hb
    simp [this]
  | some kv0 =>
    have hmem : kv0 ∈ b.bids := List.mem_of_getLast?_eq_some hb
    constructor
    · intro hnil
      rw [hnil] at hmem
      simp at hmem
    · intro _
      exact ⟨⟨kv0, hmem, rfl⟩, key_le_getLast hs hb⟩

theorem bestAskOK_update_best {b : OrderBook} (hs : SortedMap b.asks) :
    bestAskOK b.update_best_prices := by
  unfold bestAskOK OrderBook.update_best_prices
  cases hb : b.asks.head? with
  | none =>
    have : b.asks = [] := List.head?_eq_none_iff.1 hb
    simp [this]
  | some kv0 =>
    have hmem : kv0 ∈ b.asks := List.mem_of_mem_head? hb
    constructor
    · intro hnil
      rw [hnil] at hmem
      simp at hmem
    · intro _
      exact ⟨⟨kv0, hmem, rfl⟩, head_key_le hs hb⟩

theorem sorted_deleteFromLevels {m : PriceLevelMap} {p : Int} {q : Nat}
    {lv : OrderBookLevel} (hs : SortedMap m) :
    SortedMap (deleteFromLevels m p q lv) := by
  unfold deleteFromLevels
  by_cases h1 : lv.quantity ≥ q
  · by_cases h2 : lv.quantity - q = 0
    · simp only [if_pos h1, if_pos h2]
      exact sorted_eraseLevel hs
    · simp only [if_pos h1, if_neg h2]
      exact sorted_updLevel hs
  · simp only [if_neg h1]
    exact hs

theorem sorted_reduceLevelForModify {m : PriceLevelMap} {p : Int} {q : Nat}
    (hs : SortedMap m) : SortedMap (reduceLevelForModify m p q) := by
  unfold reduceLevelForModify
  cases findLevel m p with
  | none => exact hs
  | some lv =>
    by_cases h1 : lv.quantity ≥ q
    · simp only [if_pos h1]
      by_cases h2 : lv.quantity - q = 0
      · simp only [if_pos h2]
        exact sorted_eraseLevel hs
      · simp only [if_neg h2]
        exact sorted_updLevel hs
    · simp only [if_neg h1]
      exact hs

theorem bookInv_add_order {b : OrderBook} (p : Int) (q : Nat) (side : Side)
    (ts : Nat) (hsb : SortedMap b.bids) (hsa : SortedMap b.asks) :
    SortedMap (b.add_order p q side ts).bids ∧
    SortedMap (b.add_order p q side ts).asks ∧
    bestBidOK (b.add_order p q side ts) ∧ bestAskOK (b.add_order p q side ts) := by
  cases side with
  | BUY =>
    have hsb2 : SortedMap (updLevel (find_or_create_level b.bids p)
        p (fun lv => { lv with quantity := (lv.quantity + q) % U64MOD,
                               order_count := (lv.order_count + 1) % U32MOD })) :=
      sorted_updLevel (sorted_find_or_create hsb)
    refine ⟨?_, ?_, ?_, ?_⟩
    · simpa [OrderBook.add_order, OrderBook.update_best_prices] using hsb2
    · simpa [OrderBook.add_order, OrderBook.update_best_prices] using hsa
    · exact bestBidOK_update_best (b := { b with bids := _ }) hsb2
    · exact bestAskOK_update_best (b := { b with bids := _ }) hsa
  | SELL =>
    have hsa2 : SortedMap (updLevel (find_or_create_level b.asks p)
        p (fun lv => { lv with quantity := (lv.quantity + q) % U64MOD,
                               order_count := (lv.order_count + 1) % U32MOD })) :=
      sorted_updLevel (sorted_find_or_create hsa)
    refine ⟨?_, ?_, ?_, ?_⟩
    · simpa [OrderBook.add_order, OrderBook.update_best_prices] using hsb
    · simpa [OrderBook.add_order, OrderBook.update_best_prices] using hsa2
    · exact bestBidOK_update_best (b := { b with asks := _ }) hsb
    · exact bestAskOK_update_best (b := { b with asks := _ }) hsa2

theorem bookInv_applyOp {b : OrderBook} (op : BookOp)
    (hsb : SortedMap b.bids) (hsa : SortedMap b.asks)
    (hbid : bestBidOK b) (hask : bestAskOK b) :
    SortedMap (applyOp b op).bids ∧ SortedMap (applyOp b op).asks ∧
    bestBidOK (applyOp b op) ∧ bestAskOK (applyOp b op) := by
  cases op with
  | add p q side ts =>
    exact bookInv_add_order p q side ts hsb hsa
  | modify po pn q side ts =>
    cases side with
    | BUY =>
      exact bookInv_add_order (b := { b with bids := reduceLevelForModify b.bids po q })
        pn q Side.BUY ts (sorted_reduceLevelForModify hsb) hsa
    | SELL =>
      exact bookInv_add_order (b := { b with asks := reduceLevelForModify b.asks po q })
        pn q Side.SELL ts hsb (sorted_reduceLevelForModify hsa)
  | del p q side ts =>
    cases side with
    | BUY =>
      cases hf : findLevel b.bids p with
      | none =>
        have he : applyOp b (BookOp.del p q Side.BUY ts) = b := by
          simp [applyOp, OrderBook.delete_order, hf]
        rw [he]
        exact ⟨hsb, hsa, hbid, hask⟩
      | some lv =>
        have hsb2 : SortedMap (deleteFromLevels b.bids p q lv) :=
          sorted_deleteFromLevels hsb
        have he : applyOp b (BookOp.del p q Side.BUY ts) =
            OrderBook.update_best_prices
              { b with bids := deleteFromLevels b.bids p q lv } := by
          simp [applyOp, OrderBook.delete_order, hf]
        rw [he]
        exact ⟨by simpa [OrderBook.update_best_prices] using hsb2,
               by simpa [OrderBook.update_best_prices] using hsa,
               bestBidOK_update_best (b := { b with bids := deleteFromLevels b.bids p q lv }) hsb2,
               bestAskOK_update_best (b := { b with bids := deleteFromLevels b.bids p q lv }) hsa⟩
    | SELL =>
      cases hf : findLevel b.asks p with
      | none =>
        have he : applyOp b (BookOp.del p q Side.SELL ts) = b := by
          simp [applyOp, OrderBook.delete_order, hf]
        rw [he]
        exact ⟨hsb, hsa, hbid, hask⟩
      | some lv =>
        have hsa2 : SortedMap (deleteFromLevels b.asks p q lv) :=
          sorted_deleteFromLevels hsa
        have he : applyOp b (BookOp.del p q Side.SELL ts) =
            OrderBook.update_best_prices
              { b with asks := deleteFromLevels b.asks p q lv } := by
          simp [applyOp, OrderBook.delete_order, hf]
        rw [he]
        exact ⟨by simpa [OrderBook.update_best_prices] using hsb,
               by simpa [OrderBook.update_best_prices] using hsa2,
               bestBidOK_update_best (b := { b with asks := deleteFromLevels b.asks p q lv }) hsb,
               bestAskOK_update_best (b := { b with asks := deleteFromLevels b.asks p q lv }) hsa2⟩
  | quote q =>
    show SortedMap (b.update_quote q).bids ∧ _
    unfold OrderBook.update_quote
    set nb : PriceLevelMap :=
      if q.bid_price > 0 ∧ q.bid_size > 0 then
        [(q.bid_price, OrderBookLevel.mk2 q.bid_price q.bid_size)]
      else [] with hnb
    set na : PriceLevelMap :=
      if q.ask_price > 0 ∧ q.ask_size > 0 then
        [(q.ask_price, OrderBookLevel.mk2 q.ask_price q.ask_size)]
      else [] with hna
    have hsnb : SortedMap nb := by
      rw [hnb]; split <;> simp [SortedMap]
    have hsna : SortedMap na := by
      rw [hna]; split <;> simp [SortedMap]
    have h1 := bestBidOK_update_best (b := { b with bids := nb, asks := na }) hsnb
    have h2 := bestAskOK_update_best (b := { b with bids := nb, asks := na }) hsna
    refine ⟨?_, ?_, ?_, ?_⟩
    · simpa [OrderBook.update_best_prices] using hsnb
    · simpa [OrderBook.update_best_prices] using hsna
    · simpa [bestBidOK, OrderBook.update_best_prices] using h1
    · simpa [bestAskOK, OrderBook.update_best_prices] using h2
  | snapshot bs as ts =>
    show SortedMap (b.update_level2 bs as ts).bids ∧ _
    unfold OrderBook.update_level2
    have hsnb := sorted_buildLevels bs [] (by simp [SortedMap])
    have hsna := sorted_buildLevels as [] (by simp [SortedMap])
    refine ⟨?_, ?_, ?_, ?_⟩
    · simpa [OrderBook.update_best_prices] using hsnb
    · simpa [OrderBook.update_best_prices] using hsna
    · exact bestBidOK_update_best (b := { b with bids := _, asks := _ }) hsnb
    · exact bestAskOK_update_best (b := { b with bids := _, asks := _ }) hsna

theorem bookInv_applyOps (ops : List BookOp) (b : OrderBook)
    (hsb : SortedMap b.bids) (hsa : SortedMap b.asks)
    (hbid : bestBidOK b) (hask : bestAskOK b) :
    SortedMap (applyOps b ops).bids ∧ SortedMap (applyOps b ops).asks ∧
    bestBidOK (applyOps b ops) ∧ bestAskOK (applyOps b ops) := by
  induction ops generalizing b with
  | nil => exact ⟨hsb, hsa, hbid, hask⟩
  | cons op rest ih =>
    have hstep := bookInv_applyOp op hsb hsa hbid hask
    simpa [applyOps] using
      ih (applyOp b op) hstep.1 hstep.2.1 hstep.2.2.1 hstep.2.2.2

/-- C2: after every sequence of `add_order`, `modify_order`,
`delete_order`, `update_quote` and `update_level2` operations on a fresh
book, the cached best bid is a bid-map key dominating all bid keys when
the bid map is non-empty and 0 otherwise, and the cached best ask is an
ask-map key below all ask keys when the ask map is non-empty and 0
otherwise. -/
theorem claim2_best_price_cache (sym : SymbolBytes) (ops : List BookOp) :
    bestBidOK (applyOps (OrderBook.new sym) ops) ∧
    bestAskOK (applyOps (OrderBook.new sym) ops) := by
  have h0bid : bestBidOK (OrderBook.new sym) :=
    ⟨fun _ => rfl, fun h => absurd rfl h⟩
  have h0ask : bestAskOK (OrderBook.new sym) :=
    ⟨fun _ => rfl, fun h => absurd rfl h⟩
  have hs : SortedMap (OrderBook.new sym).bids := List.Pairwise.nil
  have hs2 : SortedMap (OrderBook.new sym).asks := List.Pairwise.nil
  have h := bookInv_applyOps ops (OrderBook.new sym) hs hs2 h0bid h0ask
  exact ⟨h.2.2.1, h.2.2.2⟩

/-- Witness for C2 at a concrete input: after a single add at price 100
the cached best bid is a key of the non-empty bid map. -/
theorem claim2_witness :
    ∃ kv ∈ (applyOps (OrderBook.new aaplSym) [BookOp.add 100 5 Side.BUY 0]).bids,
      kv.1 = (applyOps (OrderBook.new aaplSym)
        [BookOp.add 100 5 Side.BUY 0]).cached_best_bid :=
  ((claim2_best_price_cache aaplSym [BookOp.add 100 5 Side.BUY 0]).1.2
    (by decide)).1

theorem findLevel_some_mem {m : PriceLevelMap} {p : Int} {w : OrderBookLevel}
    (h : findLevel m p = some w) : (p, w) ∈ m := by
  induction m with
  | nil => simp [findLevel] at h
  | cons kw rest ih =>
    obtain ⟨k, v⟩ := kw
    by_cases h1 : p = k
    · subst h1
      simp only [findLevel, if_pos, Option.some.injEq] at h
      simp [h]
    · simp only [findLevel, if_neg h1] at h
      exact List.mem_cons_of_mem _ (ih h)

theorem nodup_keys_of_sorted {m : PriceLevelMap} (hs : SortedMap m) :
    (m.map Prod.fst).Nodup := by
  have h := sortedMap_iff_keys.1 hs
  exact h.imp (fun hlt => ne_of_lt hlt)

theorem mem_updLevel_nodup {m : PriceLevelMap} {p : Int}
    {f : OrderBookLevel → OrderBookLevel} {kv : Int × OrderBookLevel}
    (hnd : (m.map Prod.fst).Nodup) (h : kv ∈ updLevel m p f) :
    (kv ∈ m ∧ kv.1 ≠ p) ∨ ∃ w, (p, w) ∈ m ∧ kv = (p, f w) := by
  induction m with
  | nil => simp [updLevel] at h
  | cons kw rest ih =>
    obtain ⟨k, w⟩ := kw
    simp only [List.map_cons, List.nodup_cons] at hnd
    by_cases h1 : p = k
    · subst h1
      simp only [updLevel, if_pos, List.mem_cons] at h
      rcases h with h2 | h2
      · exact Or.inr ⟨w, (by simp), h2⟩
      · refine Or.inl ⟨List.mem_cons_of_mem _ h2, ?_⟩
        intro hkp
        exact hnd.1 (hkp ▸ List.mem_map_of_mem Prod.fst h2)
    · simp only [updLevel, if_neg h1, List.mem_cons] at h
      rcases h with h2 | h2
      · refine Or.inl ⟨by simp [h2], ?_⟩
        rw [h2]
        exact fun hh => h1 hh.symm
      · rcases ih hnd.2 h2 with ⟨hm, hne⟩ | ⟨w2, hw2, hkv⟩
        · exact Or.inl ⟨List.mem_cons_of_mem _ hm, hne⟩
        · exact Or.inr ⟨w2, List.mem_cons_of_mem _ hw2, hkv⟩

theorem addPos {m : PriceLevelMap} {p : Int} {q n : Nat}
    (hs : SortedMap m)
    (hpos : ∀ kv ∈ m, 0 < kv.2.quantity)
    (hbnd : ∀ kv ∈ m, kv.2.quantity ≤ n)
    (hq : 0 < q) (hn : n + q < U64MOD) :
    ∀ kv ∈ updLevel (find_or_create_level m p) p
      (fun lv => { lv with quantity := (lv.quantity + q) % U64MOD,
                           order_count := (lv.order_count + 1) % U32MOD }),
      0 < kv.2.quantity ∧ kv.2.quantity ≤ n + q := by
  intro kv hkv
  cases hf : findLevel m p with
  | some lv =>
    rw [find_or_create_level, hf] at hkv
    rcases mem_updLevel_nodup (nodup_keys_of_sorted hs) hkv with ⟨hm, _⟩ | ⟨w, hw, hkveq⟩
    · exact ⟨hpos kv hm, le_trans (hbnd kv hm) (Nat.le_add_right n q)⟩
    · have hwq : w.quantity ≤ n := hbnd (p, w) hw
      have hlt : w.quantity + q < U64MOD := lt_of_le_of_lt (by omega) hn
      rw [hkveq]
      simp only [Nat.mod_eq_of_lt hlt]
      omega
  | none =>
    rw [find_or_create_level, hf] at hkv
    have hs2 : SortedMap (setLevel m p (OrderBookLevel.mk2 p 0)) :=
      sorted_setLevel hs
    rcases mem_updLevel_nodup (nodup_keys_of_sorted hs2) hkv with ⟨hm, hne⟩ | ⟨w, hw, hkveq⟩
    · rcases mem_setLevel hm with h2 | h2
      · exact absurd (congrArg Prod.fst h2) hne
      · exact ⟨hpos kv h2, le_trans (hbnd kv h2) (Nat.le_add_right n q)⟩
    · rcases mem_setLevel hw with h2 | h2
      · have hw0 : w = OrderBookLevel.mk2 p 0 := congrArg Prod.snd h2
        have hqlt : q < U64MOD := lt_of_le_of_lt (Nat.le_add_left q n) hn
        rw [hkveq, hw0]
        simp only [OrderBookLevel.mk2, Nat.zero_add, Nat.mod_eq_of_lt hqlt]
        omega
      · exact absurd h2 (findLevel_eq_none_iff.1 hf w)

theorem delPos {m : PriceLevelMap} {p : Int} {q n : Nat}
    {lv : OrderBookLevel}
    (hpos : ∀ kv ∈ m, 0 < kv.2.quantity)
    (hbnd : ∀ kv ∈ m, kv.2.quantity ≤ n) (hlv : findLevel m p = some lv) :
    ∀ kv ∈ deleteFromLevels m p q lv,
      0 < kv.2.quantity ∧ kv.2.quantity ≤ n := by
  intro kv hkv
  unfold deleteFromLevels at hkv
  by_cases h1 : lv.quantity ≥ q
  · by_cases h2 : lv.quantity - q = 0
    · simp only [if_pos h1, if_pos h2] at hkv
      exact ⟨hpos kv (mem_eraseLevel hkv), hbnd kv (mem_eraseLevel hkv)⟩
    · simp only [if_pos h1, if_neg h2] at hkv
      rcases mem_updLevel hkv with hm | ⟨w, _, hkveq⟩
      · exact ⟨hpos kv hm, hbnd kv hm⟩
      · have hlq : lv.quantity ≤ n := hbnd (p, lv) (findLevel_some_mem hlv)
        rw [hkveq]
        simp only []
        refine ⟨Nat.pos_of_ne_zero h2, by omega⟩
  · simp only [if_neg h1] at hkv
    exact ⟨hpos kv hkv, hbnd kv hkv⟩

theorem reduceLevelForModify_eq (m : PriceLevelMap) (p : Int) (q : Nat) :
    reduceLevelForModify m p q =
      match findLevel m p with
      | none => m
      | some lv => deleteFromLevels m p q lv := by
  unfold reduceLevelForModify deleteFromLevels
  cases findLevel m p <;> rfl

theorem snapPos (ls : List OrderBookLevel) (init : PriceLevelMap) (N : Nat)
    (hinit : ∀ kv ∈ init, 0 < kv.2.quantity ∧ kv.2.quantity ≤ N)
    (hls : ∀ lv ∈ ls, lv.quantity ≤ N) :
    ∀ kv ∈ ls.foldl
      (fun m lv => if lv.quantity > 0 then setLevel m lv.price lv else m) init,
      0 < kv.2.quantity ∧ kv.2.quantity ≤ N := by
  induction ls generalizing init with
  | nil => simpa using hinit
  | cons lv rest ih =>
    simp only [List.foldl_cons]
    by_cases h : lv.quantity > 0
    · simp only [if_pos h]
      refine ih _ ?_ (fun x hx => hls x (List.mem_cons_of_mem _ hx))
      intro kv hkv
      rcases mem_setLevel hkv with h2 | h2
      · rw [h2]
        exact ⟨h, hls lv (by simp)⟩
      · exact hinit kv h2
    · simp only [if_neg h]
      exact ih _ hinit (fun x hx => hls x (List.mem_cons_of_mem _ hx))

theorem reducePos {m : PriceLevelMap} {p : Int} {q n : Nat}
    (hpos : ∀ kv ∈ m, 0 < kv.2.quantity)
    (hbnd : ∀ kv ∈ m, kv.2.quantity ≤ n) :
    ∀ kv ∈ reduceLevelForModify m p q,
      0 < kv.2.quantity ∧ kv.2.quantity ≤ n := by
  rw [reduceLevelForModify_eq]
  cases hf : findLevel m p with
  | none => exact fun kv hkv => ⟨hpos kv hkv, hbnd kv hkv⟩
  | some lv => exact delPos hpos hbnd hf

theorem inv3_applyOp {b : OrderBook} (op : BookOp) {n : Nat}
    (hsb : SortedMap b.bids) (hsa : SortedMap b.asks)
    (hpos : allLevelsPos b) (hbnd : levelsBounded b n)
    (hop : posOp op) (hn : n + opBudget op < U64MOD) :
    allLevelsPos (applyOp b op) ∧ levelsBounded (applyOp b op) (n + opBudget op) := by
  cases op with
  | add p q side ts =>
    have hq : 0 < q := hop
    cases side with
    | BUY =>
      have h := addPos (p := p) hsb hpos.1 hbnd.1 hq hn
      exact ⟨⟨fun kv hkv => (h kv hkv).1,
              fun kv hkv => lt_of_lt_of_le (hpos.2 kv hkv) (le_refl _)⟩,
             ⟨fun kv hkv => (h kv hkv).2,
              fun kv hkv => le_trans (hbnd.2 kv hkv) (Nat.le_add_right n _)⟩⟩
    | SELL =>
      have h := addPos (p := p) hsa hpos.2 hbnd.2 hq hn
      exact ⟨⟨fun kv hkv => hpos.1 kv hkv,
              fun kv hkv => (h kv hkv).1⟩,
             ⟨fun kv hkv => le_trans (hbnd.1 kv hkv) (Nat.le_add_right n _),
              fun kv hkv => (h kv hkv).2⟩⟩
  | modify po pn q side ts =>
    have hq : 0 < q := hop
    cases side with
    | BUY =>
      have hred := reducePos (p := po) (q := q) hpos.1 hbnd.1
      have hs2 : SortedMap (reduceLevelForModify b.bids po q) :=
        sorted_reduceLevelForModify hsb
      have h := addPos (p := pn) hs2
        (fun kv hkv => (hred kv hkv).1) (fun kv hkv => (hred kv hkv).2) hq hn
      exact ⟨⟨fun kv hkv => (h kv hkv).1,
              fun kv hkv => hpos.2 kv hkv⟩,
             ⟨fun kv hkv => (h kv hkv).2,
              fun kv hkv => le_trans (hbnd.2 kv hkv) (Nat.le_add_right n _)⟩⟩
    | SELL =>
      have hred := reducePos (p := po) (q := q) hpos.2 hbnd.2
      have hs2 : SortedMap (reduceLevelForModify b.asks po q) :=
        sorted_reduceLevelForModify hsa
      have h := addPos (p := pn) hs2
        (fun kv hkv => (hred kv hkv).1) (fun kv hkv => (hred kv hkv).2) hq hn
      exact ⟨⟨fun kv hkv => hpos.1 kv hkv,
              fun kv hkv => (h kv hkv).1⟩,
             ⟨fun kv hkv => le_trans (hbnd.1 kv hkv) (Nat.le_add_right n _),
              fun kv hkv => (h kv hkv).2⟩⟩
  | del p q side ts =>
    cases side with
    | BUY =>
      cases hf : findLevel b.bids p with
      | none =>
        have he : applyOp b (BookOp.del p q Side.BUY ts) = b := by
          simp [applyOp, OrderBook.delete_order, hf]
        rw [he]
        exact ⟨hpos, ⟨fun kv hkv => le_trans (hbnd.1 kv hkv) (Nat.le_add_right n _),
                      fun kv hkv => le_trans (hbnd.2 kv hkv) (Nat.le_add_right n _)⟩⟩
      | some lv =>
        have he : applyOp b (BookOp.del p q Side.BUY ts) =
            OrderBook.update_best_prices
              { b with bids := deleteFromLevels b.bids p q lv } := by
          simp [applyOp, OrderBook.delete_order, hf]
        rw [he]
        have h := delPos (q := q) hpos.1 hbnd.1 hf
        exact ⟨⟨fun kv hkv => (h kv hkv).1, fun kv hkv => hpos.2 kv hkv⟩,
               ⟨fun kv hkv => le_trans (h kv hkv).2 (Nat.le_add_right n _),
                fun kv hkv => le_trans (hbnd.2 kv hkv) (Nat.le_add_right n _)⟩⟩
    | SELL =>
      cases hf : findLevel b.asks p with
      | none =>
        have he : applyOp b (BookOp.del p q Side.SELL ts) = b := by
          simp [applyOp, OrderBook.delete_order, hf]
        rw [he]
        exact ⟨hpos, ⟨fun kv hkv => le_trans (hbnd.1 kv hkv) (Nat.le_add_right n _),
                      fun kv hkv => le_trans (hbnd.2 kv hkv) (Nat.le_add_right n _)⟩⟩
      | some lv =>
        have he : applyOp b (BookOp.del p q Side.SELL ts) =
            OrderBook.update_best_prices
              { b with asks := deleteFromLevels b.asks p q lv } := by
          simp [applyOp, OrderBook.delete_order, hf]
        rw [he]
        have h := delPos (q := q) hpos.2 hbnd.2 hf
        exact ⟨⟨fun kv hkv => hpos.1 kv hkv, fun kv hkv => (h kv hkv).1⟩,
               ⟨fun kv hkv => le_trans (hbnd.1 kv hkv) (Nat.le_add_right n _),
                fun kv hkv => le_trans (h kv hkv).2 (Nat.le_add_right n _)⟩⟩
  | quote q =>
    constructor
    · constructor
      · intro kv hkv
        simp only [applyOp, OrderBook.update_quote, OrderBook.update_best_prices] at hkv
        split at hkv
        · rcases List.mem_singleton.1 hkv with rfl
          rename_i hg
          simpa [OrderBookLevel.mk2] using hg.2
        · simp at hkv
      · intro kv hkv
        simp only [applyOp, OrderBook.update_quote, OrderBook.update_best_prices] at hkv
        split at hkv
        · rcases List.mem_singleton.1 hkv with rfl
          rename_i hg
          simpa [OrderBookLevel.mk2] using hg.2
        · simp at hkv
    · constructor
      · intro kv hkv
        simp only [applyOp, OrderBook.update_quote, OrderBook.update_best_prices] at hkv
        split at hkv
        · rcases List.mem_singleton.1 hkv with rfl
          simp only [OrderBookLevel.mk2, opBudget]
          omega
        · simp at hkv
      · intro kv hkv
        simp only [applyOp, OrderBook.update_quote, OrderBook.update_best_prices] at hkv
        split at hkv
        · rcases List.mem_singleton.1 hkv with rfl
          simp only [OrderBookLevel.mk2, opBudget]
          omega
        · simp at hkv
  | snapshot bs as ts =>
    have hb := snapPos bs [] (n + opBudget (BookOp.snapshot bs as ts))
      (by simp)
      (fun lv hlv => by
        have h1 : lv.quantity ≤ (bs.map (fun x => x.quantity)).sum :=
          List.le_sum_of_mem (List.mem_map_of_mem _ hlv)
        simp only [opBudget]
        omega)
    have ha := snapPos as [] (n + opBudget (BookOp.snapshot bs as ts))
      (by simp)
      (fun lv hlv => by
        have h1 : lv.quantity ≤ (as.map (fun x => x.quantity)).sum :=
          List.le_sum_of_mem (List.mem_map_of_mem _ hlv)
        simp only [opBudget]
        omega)
    exact ⟨⟨fun kv hkv => (hb kv hkv).1, fun kv hkv => (ha kv hkv).1⟩,
           ⟨fun kv hkv => (hb kv hkv).2, fun kv hkv => (ha kv hkv).2⟩⟩

theorem inv3_applyOps (ops : List BookOp) (b : OrderBook) (n : Nat)
    (hsb : SortedMap b.bids) (hsa : SortedMap b.asks)
    (hbid : bestBidOK b) (hask : bestAskOK b)
    (hpos : allLevelsPos b) (hbnd : levelsBounded b n)
    (hops : ∀ op ∈ ops, posOp op) (hn : n + opsBudget ops < U64MOD) :
    allLevelsPos (applyOps b ops) ∧
    levelsBounded (applyOps b ops) (n + opsBudget ops) := by
  induction ops generalizing b n with
  | nil => simpa [applyOps, opsBudget] using ⟨hpos, hbnd⟩
  | cons op rest ih =>
    have hcons : opsBudget (op :: rest) = opBudget op + opsBudget rest := by
      simp [opsBudget]
    have hstep := inv3_applyOp op hsb hsa hpos hbnd (hops op (by simp))
      (by omega)
    have hinv := bookInv_applyOp op hsb hsa hbid hask
    have h2 := ih (applyOp b op) (n + opBudget op)
      hinv.1 hinv.2.1 hinv.2.2.1 hinv.2.2.2 hstep.1 hstep.2
      (fun o ho => hops o (List.mem_cons_of_mem _ ho)) (by omega)
    constructor
    · simpa [applyOps] using h2.1
    · rw [hcons, ← Nat.add_assoc]
      simpa [applyOps] using h2.2

/-- C3 (amended): provided every `add_order`/`modify_order` quantity in
the sequence is positive and the total quantity fed to the book stays
below `2^64` (no `uint64_t` wrap), every level present in either side has
strictly positive quantity.  The `order_count >= 1` half of the original
claim is false: see the counterexample. -/
theorem claim3_positive_quantities (sym : SymbolBytes) (ops : List BookOp)
    (hops : ∀ op ∈ ops, posOp op) (hn : opsBudget ops < U64MOD) :
    allLevelsPos (applyOps (OrderBook.new sym) ops) := by
  have h := inv3_applyOps ops (OrderBook.new sym) 0
    List.Pairwise.nil List.Pairwise.nil
    ⟨fun _ => rfl, fun h => absurd rfl h⟩
    ⟨fun _ => rfl, fun h => absurd rfl h⟩
    ⟨fun kv hkv => absurd hkv (List.not_mem_nil kv),
     fun kv hkv => absurd hkv (List.not_mem_nil kv)⟩
    ⟨fun kv hkv => absurd hkv (List.not_mem_nil kv),
     fun kv hkv => absurd hkv (List.not_mem_nil kv)⟩
    hops (by omega)
  exact h.1

/-- Witness for C3 at a concrete input: an add of 5 then a delete of 2 at
price 100 leaves only positive-quantity levels. -/
theorem claim3_witness :
    allLevelsPos (applyOps (OrderBook.new aaplSym)
      [BookOp.add 100 5 Side.BUY 0, BookOp.del 100 2 Side.BUY 0]) :=
  claim3_positive_quantities aaplSym
    [BookOp.add 100 5 Side.BUY 0, BookOp.del 100 2 Side.BUY 0]
    (by decide) (by decide)

/-- Counterexample to C3 as stated: after `add_order(100, 5, BUY)` and two
`delete_order(100, 1, BUY)` calls, the bid level at 100 is observable with
quantity 3 but `order_count = 0`, refuting `order_count >= 1`. -/
theorem claim3_counterexample :
    findLevel countBook.bids 100 = some ⟨100, 3, 0⟩ ∧
    ¬ (∀ kv ∈ countBook.bids, 1 ≤ kv.2.order_count) := by
  constructor
  · decide
  · decide

theorem findLevel_updLevel_self {m : PriceLevelMap} {p : Int}
    {w : OrderBookLevel} {f : OrderBookLevel → OrderBookLevel}
    (h : findLevel m p = some w) :
    findLevel (updLevel m p f) p = some (f w) := by
  induction m with
  | nil => simp [findLevel] at h
  | cons kw rest ih =>
    obtain ⟨k, v⟩ := kw
    by_cases h1 : p = k
    · subst h1
      simp only [findLevel, if_pos, Option.some.injEq] at h
      simp [updLevel, findLevel, h]
    · simp only [findLevel, if_neg h1] at h
      simp only [updLevel, if_neg h1, findLevel, if_neg h1]
      exact ih h

theorem findLevel_of_not_mem_keys {m : PriceLevelMap} {p : Int}
    (h : p ∉ m.map Prod.fst) : findLevel m p = none := by
  refine findLevel_eq_none_iff.2 (fun w hw => ?_)
  exact h (List.mem_map_of_mem Prod.fst hw)

theorem findLevel_eraseLevel_self {m : PriceLevelMap} {p : Int}
    (hnd : (m.map Prod.fst).Nodup) :
    findLevel (eraseLevel m p) p = none := by
  induction m with
  | nil => simp [eraseLevel, findLevel]
  | cons kw rest ih =>
    obtain ⟨k, w⟩ := kw
    simp only [List.map_cons, List.nodup_cons] at hnd
    by_cases h1 : p = k
    · subst h1
      simp only [eraseLevel, if_pos]
      exact findLevel_of_not_mem_keys hnd.1
    · simp only [eraseLevel, if_neg h1, findLevel, if_neg h1]
      exact ih hnd.2

/-- C4 (amended): `delete_order` subtracts `qty` only when the level at
`price` exists and holds at least `qty` (removing it when the result is
0); a delete against a missing price leaves the book untouched, and a
delete larger than the level quantity leaves the level exactly as it was
(the C++ guard skips the subtraction), rather than clamping it to zero.
Statistics are never modified. -/
theorem claim4_delete_behaviour (b : OrderBook) (p : Int) (q : Nat)
    (side : Side) (ts : Nat) (hs : SortedMap (sideMap b side)) :
    (findLevel (sideMap b side) p = none → b.delete_order p q side ts = b) ∧
    (∀ lv, findLevel (sideMap b side) p = some lv → lv.quantity < q →
      sideMap (b.delete_order p q side ts) side = sideMap b side) ∧
    (∀ lv, findLevel (sideMap b side) p = some lv → q ≤ lv.quantity →
      lv.quantity ≠ q →
      findLevel (sideMap (b.delete_order p q side ts) side) p =
        some ⟨lv.price, lv.quantity - q,
          if 0 < lv.order_count then lv.order_count - 1
          else lv.order_count⟩) ∧
    (∀ lv, findLevel (sideMap b side) p = some lv → lv.quantity = q →
      findLevel (sideMap (b.delete_order p q side ts) side) p = none) ∧
    (b.delete_order p q side ts).statistics = b.statistics := by
  cases side with
  | BUY =>
    refine ⟨?_, ?_, ?_, ?_, ?_⟩
    · intro hf
      simp [OrderBook.delete_order, show findLevel b.bids p = none from hf]
    · intro lv hf hlt
      simp only [sideMap] at hf
      simp [OrderBook.delete_order, hf, OrderBook.update_best_prices, sideMap,
        deleteFromLevels, Nat.not_le.2 hlt]
    · intro lv hf hge hne
      simp only [sideMap] at hf
      have hq2 : lv.quantity - q ≠ 0 := by omega
      simp only [OrderBook.delete_order, hf, sideMap, OrderBook.update_best_prices,
        deleteFromLevels, if_pos hge, if_neg hq2]
      exact findLevel_updLevel_self hf
    · intro lv hf heq
      simp only [sideMap] at hf
      have hq2 : lv.quantity - q = 0 := by omega
      simp only [OrderBook.delete_order, hf, sideMap, OrderBook.update_best_prices,
        deleteFromLevels, if_pos (le_of_eq heq.symm), if_pos hq2]
      exact findLevel_eraseLevel_self (nodup_keys_of_sorted hs)
    · cases hf : findLevel b.bids p with
      | none => simp [OrderBook.delete_order, hf]
      | some lv => simp [OrderBook.delete_order, hf, OrderBook.update_best_prices]
  | SELL =>
    refine ⟨?_, ?_, ?_, ?_, ?_⟩
    · intro hf
      simp [OrderBook.delete_order, show findLevel b.asks p = none from hf]
    · intro lv hf hlt
      simp only [sideMap] at hf
      simp [OrderBook.delete_order, hf, OrderBook.update_best_prices, sideMap,
        deleteFromLevels, Nat.not_le.2 hlt]
    · intro lv hf hge hne
      simp only [sideMap] at hf
      have hq2 : lv.quantity - q ≠ 0 := by omega
      simp only [OrderBook.delete_order, hf, sideMap, OrderBook.update_best_prices,
        deleteFromLevels, if_pos hge, if_neg hq2]
      exact findLevel_updLevel_self hf
    · intro lv hf heq
      simp only [sideMap] at hf
      have hq2 : lv.quantity - q = 0 := by omega
      simp only [OrderBook.delete_order, hf, sideMap, OrderBook.update_best_prices,
        deleteFromLevels, if_pos (le_of_eq heq.symm), if_pos hq2]
      exact findLevel_eraseLevel_self (nodup_keys_of_sorted hs)
    · cases hf : findLevel b.asks p with
      | none => simp [OrderBook.delete_order, hf]
      | some lv => simp [OrderBook.delete_order, hf, OrderBook.update_best_prices]

/-- Witness for C4 at a concrete input: deleting 2 from the level of
quantity 5 at price 100 leaves the level with quantity 3 and one fewer
order. -/
theorem claim4_witness :
    findLevel (sideMap (((OrderBook.new aaplSym).add_order 100 5 Side.BUY 0).delete_order
      100 2 Side.BUY 0) Side.BUY) 100 = some ⟨100, 3, 1⟩ := by
  have h := (claim4_delete_behaviour
    ((OrderBook.new aaplSym).add_order 100 5 Side.BUY 0) 100 2 Side.BUY 0
    (by decide)).2.2.1 ⟨100, 5, 2⟩ (by decide) (by decide) (by decide)
  simpa using h

/-- Counterexample to C4 as stated: deleting 10 from a level holding only
3 leaves the level present with quantity 3 — it is neither clamped to 0
nor removed. -/
theorem claim4_counterexample :
    findLevel clampBook.bids 100 = some ⟨100, 3, 2⟩ ∧
    ¬ (findLevel clampBook.bids 100 = none) ∧
    ∀ lv, findLevel clampBook.bids 100 = some lv → lv.quantity ≠ 0 := by
  refine ⟨by decide, by decide, ?_⟩
  intro lv hlv
  have : lv = ⟨100, 3, 2⟩ := by
    have h2 : findLevel clampBook.bids 100 = some ⟨100, 3, 2⟩ := by decide
    rw [h2] at hlv
    exact (Option.some.injEq _ _ ▸ hlv).symm
  simp [this]

/-- C8: `update_trade` on a book changes only the statistics block — the
bid map, ask map and both cached best prices are untouched, for every
book and every trade; and in the literal scenario (quote 150.00/150.02
sizes 500/750, then trade 150.01 x 200 BUY) the book levels are unchanged
while the statistics become last=150.01, volume=200, high=low=open=150.01,
vwap=150.01, trade_count=1. -/
theorem claim8_trade_frame :
    (∀ (b : OrderBook) (t : MarketTrade),
      (b.update_trade t).bids = b.bids ∧
      (b.update_trade t).asks = b.asks ∧
      (b.update_trade t).cached_best_bid = b.cached_best_bid ∧
      (b.update_trade t).cached_best_ask = b.cached_best_ask ∧
      (b.update_trade t).symbol = b.symbol) ∧
    ((scenarioBook.update_trade scenarioTrade).bids = scenarioBook.bids ∧
     (scenarioBook.update_trade scenarioTrade).asks = scenarioBook.asks ∧
     scenarioBook.cached_best_bid = 1500000 ∧
     scenarioBook.cached_best_ask = 1500200 ∧
     (scenarioBook.update_trade scenarioTrade).statistics.last_price = 1500100 ∧
     (scenarioBook.update_trade scenarioTrade).statistics.total_volume = 200 ∧
     (scenarioBook.update_trade scenarioTrade).statistics.high_price = 1500100 ∧
     (scenarioBook.update_trade scenarioTrade).statistics.low_price = 1500100 ∧
     (scenarioBook.update_trade scenarioTrade).statistics.open_price = 1500100 ∧
     (scenarioBook.update_trade scenarioTrade).statistics.vwap = 1500100 ∧
     (scenarioBook.update_trade scenarioTrade).statistics.trade_count = 1) := by
  constructor
  · intro b t
    exact ⟨rfl, rfl, rfl, rfl, rfl⟩
  · decide

theorem lookupBook_replaceBook {l : List (BookKey × OrderBook)}
    {k : BookKey} {b b0 : OrderBook} (h : lookupBook l k = some b0) :
    lookupBook (replaceBook l k b) k = some b := by
  induction l with
  | nil => simp [lookupBook] at h
  | cons kb rest ih =>
    obtain ⟨k0, b1⟩ := kb
    by_cases h1 : k = k0
    · simp [replaceBook, lookupBook, if_pos h1]
    · simp only [lookupBook, if_neg h1] at h
      simp only [replaceBook, if_neg h1, lookupBook, if_neg h1]
      exact ih h

theorem lookupBook_append_self {l : List (BookKey × OrderBook)}
    {k : BookKey} {b : OrderBook} (h : lookupBook l k = none) :
    lookupBook (l ++ [(k, b)]) k = some b := by
  induction l with
  | nil => simp [lookupBook]
  | cons kb rest ih =>
    obtain ⟨k0, b1⟩ := kb
    by_cases h1 : k = k0
    · simp [lookupBook, if_pos h1] at h
    · simp only [lookupBook, if_neg h1] at h
      simp only [List.cons_append, lookupBook, if_neg h1]
      exact ih h

/-- C1 (amended): `process_message` dispatches TRADE to the target
book's `update_trade` and QUOTE to `update_quote` (creating the book if
absent); every other message type — ORDER_ADD, ORDER_MODIFY,
ORDER_DELETE and BOOK_SNAPSHOT included — falls into the empty `default`
branch and leaves the manager completely unchanged, exactly like
HEARTBEAT and STATISTICS. -/
theorem claim1_dispatch (mgr : OrderBookManager) (msg : MarketDataMessage) :
    (msg.type = MessageType.TRADE →
      mgr.process_message msg = mgr.update_trade msg.trade_data ∧
      lookupBook (mgr.process_message msg).books
          (symbol_to_string msg.trade_data.symbol) =
        some ((match lookupBook mgr.books
                 (symbol_to_string msg.trade_data.symbol) with
               | some b => b
               | none => OrderBook.new msg.trade_data.symbol).update_trade
          msg.trade_data)) ∧
    (msg.type = MessageType.QUOTE →
      mgr.process_message msg = mgr.update_quote msg.quote_data ∧
      lookupBook (mgr.process_message msg).books
          (symbol_to_string msg.quote_data.symbol) =
        some ((match lookupBook mgr.books
                 (symbol_to_string msg.quote_data.symbol) with
               | some b => b
               | none => OrderBook.new msg.quote_data.symbol).update_quote
          msg.quote_data)) ∧
    (msg.type ≠ MessageType.TRADE → msg.type ≠ MessageType.QUOTE →
      mgr.process_message msg = mgr) := by
  refine ⟨?_, ?_, ?_⟩
  · intro h
    have he : mgr.process_message msg = mgr.update_trade msg.trade_data := by
      simp [OrderBookManager.process_message, h]
    refine ⟨he, ?_⟩
    rw [he]
    unfold OrderBookManager.update_trade
    cases hl : lookupBook mgr.books (symbol_to_string msg.trade_data.symbol) with
    | some b =>
      simp only [hl]
      simpa using lookupBook_replaceBook (b := b.update_trade msg.trade_data) hl
    | none =>
      simp only [hl]
      simpa using lookupBook_append_self hl
  · intro h
    have he : mgr.process_message msg = mgr.update_quote msg.quote_data := by
      simp [OrderBookManager.process_message, h]
    refine ⟨he, ?_⟩
    rw [he]
    unfold OrderBookManager.update_quote
    cases hl : lookupBook mgr.books (symbol_to_string msg.quote_data.symbol) with
    | some b =>
      simp only [hl]
      simpa using lookupBook_replaceBook (b := b.update_quote msg.quote_data) hl
    | none =>
      simp only [hl]
      simpa using lookupBook_append_self hl
  · intro h1 h2
    cases htype : msg.type <;>
      simp_all [OrderBookManager.process_message]

/-- Witness for C1 at a concrete input: processing a TRADE message on an
empty manager creates the AAPL book with the trade applied. -/
theorem claim1_witness :
    lookupBook (OrderBookManager.init.process_message tradeMsg).books
        (symbol_to_string aaplSym) =
      some ((OrderBook.new aaplSym).update_trade tradeMsg.trade_data) := by
  have h := ((claim1_dispatch OrderBookManager.init tradeMsg).1 rfl).2
  simpa [OrderBookManager.init, lookupBook, tradeMsg] using h

/-- Counterexample to C1 as stated: an ORDER_ADD message is not
dispatched to any book operation — the manager (and its empty book set)
is returned untouched, so no level is created anywhere. -/
theorem claim1_counterexample :
    OrderBookManager.init.process_message orderAddMsg = OrderBookManager.init ∧
    (OrderBookManager.init.process_message orderAddMsg).books = [] :=
  ⟨rfl, rfl⟩

theorem make_symbol_eq (s : List Nat) :
    make_symbol s = s.take 15 ++ List.replicate (16 - (s.take 15).length) 0 := by
  have h2 : s.take (min s.length 15) = s.take 15 := by
    rw [Nat.min_comm, ← List.take_take, List.take_length]
  have h1 : min s.length 15 = (s.take 15).length := by
    simp [List.length_take, Nat.min_comm]
  simp only [make_symbol]
  rw [h2, h1]

theorem takeWhile_replicate_zero (m : Nat) :
    (List.replicate m 0).takeWhile (fun b => b ≠ 0) = ([] : List Nat) := by
  cases m with
  | zero => simp
  | succ k => simp [List.replicate_succ, List.takeWhile_cons]

/-- C10 (amended): `make_symbol` copies at most 15 bytes (the 16th is
always NUL), and it is determined by the first 15 bytes of its input, so
strings agreeing on those map to the same `Symbol` and hence to the same
order book key; but the round trip `symbol_to_string (make_symbol s) = s`
holds exactly when `s` has length at most 15 AND contains no NUL byte —
an embedded NUL breaks it even at short lengths (see the
counterexample). -/
theorem claim10_symbol_roundtrip (s : List Nat) :
    (symbol_to_string (make_symbol s) = s ↔
      s.length ≤ 15 ∧ ∀ b ∈ s, b ≠ 0) ∧
    (∀ t : List Nat, s.take 15 = t.take 15 → make_symbol s = make_symbol t) ∧
    (∀ t : List Nat, s.take 15 = t.take 15 →
      symbol_to_string (make_symbol s) = symbol_to_string (make_symbol t)) := by
  refine ⟨⟨?_, ?_⟩, ?_, ?_⟩
  · intro h
    constructor
    · by_contra hlen
      have hlen16 : 16 ≤ s.length := by omega
      have hml : (make_symbol s).length = 16 := by
        rw [make_symbol_eq]
        simp [List.length_take]
      have hpre := List.takeWhile_prefix (l := make_symbol s)
        (p := fun b => decide (b ≠ 0))
      have hlen2 : s.length ≤ 16 := by
        have := hpre.length_le
        rw [hml] at this
        calc s.length = (symbol_to_string (make_symbol s)).length := by rw [h]
        _ ≤ 16 := this
      have hs16 : s.length = 16 := by omega
      have heq : (make_symbol s).takeWhile (fun b => decide (b ≠ 0)) =
          make_symbol s := by
        refine hpre.eq_of_length ?_
        show (symbol_to_string (make_symbol s)).length = _
        rw [h, hml, hs16]
      have hall := List.takeWhile_eq_self_iff.1 heq
      have h0 : (0 : Nat) ∈ make_symbol s := by
        rw [make_symbol_eq]
        refine List.mem_append_right _ ?_
        have : 16 - (s.take 15).length = 1 := by
          simp [List.length_take]
          omega
        rw [this]
        simp
      have := hall 0 h0
      simp at this
    · intro b hb
      have hb2 : b ∈ (make_symbol s).takeWhile (fun b => decide (b ≠ 0)) := by
        rw [show (make_symbol s).takeWhile (fun b => decide (b ≠ 0)) = s from h]
        exact hb
      have := List.mem_takeWhile_imp hb2
      simpa using this
  · rintro ⟨hlen, hnz⟩
    have htake : s.take 15 = s := List.take_of_length_le hlen
    rw [symbol_to_string, make_symbol_eq, htake]
    rw [List.takeWhile_append_of_pos (by simpa using hnz)]
    rw [takeWhile_replicate_zero]
    simp
  · intro t ht
    rw [make_symbol_eq, make_symbol_eq, ht]
  · intro t ht
    rw [symbol_to_string, symbol_to_string, make_symbol_eq, make_symbol_eq, ht]

/-- Witness for C10 at a concrete input: the 4-byte NUL-free input AAPL
round-trips. -/
theorem claim10_witness :
    symbol_to_string (make_symbol [65, 65, 80, 76]) = [65, 65, 80, 76] :=
  (claim10_symbol_roundtrip [65, 65, 80, 76]).1.2 ⟨by decide, by decide⟩

/-- Counterexample to C10 as stated: the one-byte string consisting of a
NUL has length at most 15, yet the round trip loses it. -/
theorem claim10_counterexample :
    ([0] : List Nat).length ≤ 15 ∧
    symbol_to_string (make_symbol [0]) = [] ∧
    symbol_to_string (make_symbol [0]) ≠ [0] := by
  refine ⟨by decide, by decide, by decide⟩

theorem checksum_foldl (l : List Nat) (a : Nat) :
    l.foldl (fun s c => (s + c) % U32MOD) (a % U32MOD) = (a + l.sum) % U32MOD := by
  induction l generalizing a with
  | nil => simp
  | cons c rest ih =>
    simp only [List.foldl_cons, List.sum_cons]
    rw [Nat.mod_add_mod, ih (a + c), Nat.add_assoc]

theorem calculate_checksum_eq (l : List Nat) :
    calculate_checksum l = l.sum % 256 := by
  unfold calculate_checksum
  have h0 : (0 : Nat) = 0 % U32MOD := rfl
  rw [h0, checksum_foldl, Nat.zero_add]
  exact Nat.mod_mod_of_dvd _ ⟨2 ^ 24, by norm_num [U32MOD]⟩

theorem sum_set (l : List Nat) (i v : Nat) (h : i < l.length) :
    (l.set i v).sum + l.getD i 0 = l.sum + v := by
  induction l generalizing i with
  | nil => simp at h
  | cons c rest ih =>
    cases i with
    | zero => simp [List.set, List.getD]; omega
    | succ j =>
      simp only [List.set, List.sum_cons, List.getD_cons_succ]
      have := ih j (by simpa using Nat.lt_of_succ_lt_succ h)
      omega

theorem mod256_ne_of_add_pow {a k : Nat} (hk : k < 8) :
    (a + 2 ^ k) % 256 ≠ a % 256 := by
  intro heq
  have hmod : Nat.ModEq 256 a (a + 2 ^ k) := heq.symm
  have hdvd : (256 : Nat) ∣ (a + 2 ^ k) - a :=
    (Nat.modEq_iff_dvd' (Nat.le_add_right a _)).1 hmod
  rw [Nat.add_sub_cancel_left] at hdvd
  have h1 : (256 : Nat) ≤ 2 ^ k := Nat.le_of_dvd (Nat.pos_pow_of_pos k (by omega)) hdvd
  have h2 : (2 : Nat) ^ k ≤ 2 ^ 7 := Nat.pow_le_pow_right (by omega) (by omega)
  norm_num at h2
  omega

/-- C9 (amended): `validate_checksum` is stubbed to return `true` for
every input, so flipping a bit in a frame is never rejected; however the
checksum algorithm itself (`calculate_checksum`, a modulo-256 byte sum)
does change under any single-bit flip of any covered byte, so a validator
that compared the stored checksum against the recomputed one would fail
as the original claim expects. -/
theorem claim9_checksum :
    (∀ msg : List Nat, validate_checksum msg = true) ∧
    (∀ (msg : List Nat) (i k : Nat), i < msg.length → k < 8 →
      (∀ b ∈ msg, b < 256) →
      calculate_checksum (flipByteAt msg i k) ≠ calculate_checksum msg) := by
  constructor
  · intro msg
    rfl
  · intro msg i k hi hk hbytes
    rw [calculate_checksum_eq, calculate_checksum_eq]
    have hsum := sum_set msg i (flipBit k (msg.getD i 0)) hi
    set b := msg.getD i 0 with hbdef
    have hbmem : b ∈ msg := by
      rw [hbdef, List.getD_eq_getElem msg 0 hi]
      exact List.getElem_mem hi
    cases hbit : Nat.testBit b k with
    | true =>
      have hge : 2 ^ k ≤ b := Nat.testBit_implies_ge hbit
      have hfb : flipBit k b = b - 2 ^ k := by simp [flipBit, hbit]
      rw [hfb] at hsum
      have hrel : msg.sum = (flipByteAt msg i k).sum + 2 ^ k := by
        unfold flipByteAt
        rw [← hbdef, hfb]
        omega
      rw [hrel]
      exact (mod256_ne_of_add_pow hk).symm
    | false =>
      have hfb : flipBit k b = b + 2 ^ k := by simp [flipBit, hbit]
      rw [hfb] at hsum
      have hrel : (flipByteAt msg i k).sum = msg.sum + 2 ^ k := by
        unfold flipByteAt
        rw [← hbdef, hfb]
        omega
      rw [hrel]
      exact mod256_ne_of_add_pow hk

/-- Witness for C9 at a concrete input: flipping bit 0 of the third byte
of the frame body changes its modulo-256 checksum. -/
theorem claim9_witness :
    calculate_checksum (flipByteAt fixBody 2 0) ≠ calculate_checksum fixBody :=
  claim9_checksum.2 fixBody 2 0 (by decide) (by decide) (by decide)

/-- Counterexample to C9 as stated: `fixFrame` is well formed (its final
field stores 245, the modulo-256 checksum of all preceding bytes), yet
after flipping a payload bit the parser's `validate_checksum` still
returns `true` — it is stubbed and never fails. -/
theorem claim9_counterexample :
    calculate_checksum fixBody = 245 ∧
    flipByteAt fixFrame 2 0 ≠ fixFrame ∧
    validate_checksum (flipByteAt fixFrame 2 0) = true := by
  refine ⟨by decide, by decide, rfl⟩

theorem update_trade_core (s : MarketStatistics) (p : Int) (q : Nat) :
    (s.update_trade p q).total_volume = (s.total_volume + q) % U64MOD ∧
    (s.update_trade p q).trade_count = (s.trade_count + 1) % U64MOD ∧
    (s.update_trade p q).vwap =
      (if (s.total_volume + q) % U64MOD > 0 then
        toI64 (((toU64 s.vwap * s.total_volume) % U64MOD +
          (toU64 p * q) % U64MOD) % U64MOD / ((s.total_volume + q) % U64MOD))
       else s.vwap) := by
  unfold MarketStatistics.update_trade
  by_cases h0 : s.trade_count = 0 <;>
    by_cases h1 : (s.total_volume + q) % U64MOD > 0 <;>
      simp [h0, h1]

theorem toU64_of_small {v : Int} (h0 : 0 ≤ v) (h1 : v < (U64MOD : Int)) :
    toU64 v = v.toNat := by
  unfold toU64
  rw [Int.emod_eq_of_lt h0 h1]

theorem toI64_of_small {d : Nat} (h : d < 2 ^ 63) : toI64 d = (d : Int) := by
  unfold toI64
  have h2 : d % U64MOD = d := Nat.mod_eq_of_lt (by
    have : (2 : Nat) ^ 63 < 2 ^ 64 := by norm_num
    simp only [U64MOD]
    omega)
  rw [h2, if_pos h]

theorem vwap_step {s : MarketStatistics} {a b n : Nat} {p : Int} {q : Nat}
    (hv0 : 0 ≤ s.vwap) (hva : s.vwap.toNat ≤ a)
    (hbound : s.vwap.toNat * s.total_volume ≤ a)
    (hV : s.total_volume = b) (hc : s.trade_count = n)
    (hp0 : 0 ≤ p) (hplt : p < 2 ^ 63)
    (ha : a + p.toNat * q < 2 ^ 63) (hb : b + q < U64MOD)
    (hn : n + 1 < U64MOD) :
    0 ≤ (s.update_trade p q).vwap ∧
    (s.update_trade p q).vwap.toNat ≤ a + p.toNat * q ∧
    (s.update_trade p q).vwap.toNat * (s.update_trade p q).total_volume ≤
      a + p.toNat * q ∧
    (s.update_trade p q).total_volume = b + q ∧
    (s.update_trade p q).trade_count = n + 1 := by
  obtain ⟨hV', hc', hv'⟩ := update_trade_core s p q
  have hpow : (2 : Nat) ^ 63 < U64MOD := by norm_num [U64MOD]
  have halepow : a < 2 ^ 63 := by omega
  have hvint : s.vwap < (U64MOD : Int) := by
    have h1 : s.vwap = (s.vwap.toNat : Int) := (Int.toNat_of_nonneg hv0).symm
    rw [h1]
    exact_mod_cast lt_of_le_of_lt hva (lt_trans halepow hpow)
  have hu1 : toU64 s.vwap = s.vwap.toNat := toU64_of_small hv0 hvint
  have hu2 : toU64 p = p.toNat :=
    toU64_of_small hp0 (lt_trans hplt (by exact_mod_cast hpow))
  have hold : (toU64 s.vwap * s.total_volume) % U64MOD =
      s.vwap.toNat * s.total_volume := by
    rw [hu1]
    exact Nat.mod_eq_of_lt (by omega)
  have hnewv : (toU64 p * q) % U64MOD = p.toNat * q := by
    rw [hu2]
    exact Nat.mod_eq_of_lt (by omega)
  have htot : (s.total_volume + q) % U64MOD = b + q := by
    rw [hV]
    exact Nat.mod_eq_of_lt hb
  have hVeq : (s.update_trade p q).total_volume = b + q := by rw [hV', htot]
  have hCeq : (s.update_trade p q).trade_count = n + 1 := by
    rw [hc', hc]
    exact Nat.mod_eq_of_lt hn
  by_cases hpos : 0 < b + q
  · have hnum : (s.vwap.toNat * s.total_volume + p.toNat * q) % U64MOD =
        s.vwap.toNat * s.total_volume + p.toNat * q :=
      Nat.mod_eq_of_lt (by omega)
    have hveq : (s.update_trade p q).vwap =
        ((s.vwap.toNat * s.total_volume + p.toNat * q) / (b + q) : Nat) := by
      rw [hv', htot, if_pos hpos, hold, hnewv, hnum]
      have h2 := Nat.div_le_self
        (s.vwap.toNat * s.total_volume + p.toNat * q) (b + q)
      exact toI64_of_small (by omega)
    have hd : (s.vwap.toNat * s.total_volume + p.toNat * q) / (b + q) ≤
        a + p.toNat * q :=
      Nat.le_trans (Nat.div_le_self _ _) (by omega)
    have hdm : ((s.vwap.toNat * s.total_volume + p.toNat * q) / (b + q)) * (b + q) ≤
        a + p.toNat * q :=
      Nat.le_trans (Nat.div_mul_le_self _ _) (by omega)
    refine ⟨?_, ?_, ?_, hVeq, hCeq⟩
    · rw [hveq]
      exact Int.natCast_nonneg _
    · rw [hveq, Int.toNat_natCast]
      exact hd
    · rw [hveq, Int.toNat_natCast, hVeq]
      exact hdm
  · have hq0 : q = 0 ∧ b = 0 := by omega
    have hveq : (s.update_trade p q).vwap = s.vwap := by
      rw [hv', htot, if_neg (by omega)]
    refine ⟨?_, ?_, ?_, hVeq, hCeq⟩
    · rw [hveq]; exact hv0
    · rw [hveq]
      exact Nat.le_trans hva (Nat.le_add_right a _)
    · rw [hveq, hVeq]
      have : b + q = 0 := by omega
      rw [this, Nat.mul_zero]
      exact Nat.zero_le _

theorem vwap_fold (ts : List (Int × Nat)) (s : MarketStatistics) (a b n : Nat)
    (hv0 : 0 ≤ s.vwap) (hva : s.vwap.toNat ≤ a)
    (hbound : s.vwap.toNat * s.total_volume ≤ a)
    (hV : s.total_volume = b) (hc : s.trade_count = n)
    (hall : ∀ pq ∈ ts, 0 ≤ pq.1 ∧ pq.1 < 2 ^ 63)
    (ha : a + tapeValue ts < 2 ^ 63) (hb : b + tapeVolume ts < U64MOD)
    (hn : n + ts.length < U64MOD) :
    0 ≤ (ts.foldl (fun s pq => s.update_trade pq.1 pq.2) s).vwap ∧
    (ts.foldl (fun s pq => s.update_trade pq.1 pq.2) s).vwap.toNat ≤
      a + tapeValue ts ∧
    (ts.foldl (fun s pq => s.update_trade pq.1 pq.2) s).vwap.toNat *
      (ts.foldl (fun s pq => s.update_trade pq.1 pq.2) s).total_volume ≤
      a + tapeValue ts ∧
    (ts.foldl (fun s pq => s.update_trade pq.1 pq.2) s).total_volume =
      b + tapeVolume ts ∧
    (ts.foldl (fun s pq => s.update_trade pq.1 pq.2) s).trade_count =
      n + ts.length := by
  induction ts generalizing s a b n with
  | nil =>
    simp only [List.foldl_nil, tapeValue, tapeVolume, List.map_nil,
      List.sum_nil, Nat.add_zero, List.length_nil]
    exact ⟨hv0, hva, hbound, hV, hc⟩
  | cons pq rest ih =>
    have hcv : tapeValue (pq :: rest) = pq.1.toNat * pq.2 + tapeValue rest := by
      simp [tapeValue]
    have hcq : tapeVolume (pq :: rest) = pq.2 + tapeVolume rest := by
      simp [tapeVolume]
    have hmem := hall pq (by simp)
    have hlc : (pq :: rest).length = rest.length + 1 := by simp
    have hstep := vwap_step (p := pq.1) (q := pq.2)
      hv0 hva hbound hV hc hmem.1 hmem.2
      (by omega) (by omega) (by omega)
    have hrest := ih (s.update_trade pq.1 pq.2)
      (a + pq.1.toNat * pq.2) (b + pq.2) (n + 1)
      hstep.1 hstep.2.1 hstep.2.2.1 hstep.2.2.2.1 hstep.2.2.2.2
      (fun x hx => hall x (List.mem_cons_of_mem _ hx))
      (by omega) (by omega) (by simp at hn; omega)
    simp only [List.foldl_cons]
    refine ⟨hrest.1, by omega, by omega, by omega, ?_⟩
    have h5 := hrest.2.2.2.2
    simp only [List.length_cons]
    omega

/-- C6 (amended): `MarketStatistics::update_trade` computes
`vwap = (vwap * total_volume_before + price * quantity) / total_volume_after`
with `uint64_t` intermediates that wrap at `2^64` (there is no 128-bit
widening), using truncating division.  When nothing wraps (total traded
value below `2^63`, total volume below `2^64`), the invariant that holds
is the one-sided bound `vwap * total_volume <= sum of price_i * qty_i`;
equality within one unit fails in general (see the counterexample), and
with large prices the 64-bit intermediate genuinely overflows. -/
theorem claim6_vwap_bound (ts : List (Int × Nat))
    (hall : ∀ pq ∈ ts, 0 ≤ pq.1 ∧ pq.1 < 2 ^ 63)
    (hval : tapeValue ts < 2 ^ 63) (hvol : tapeVolume ts < U64MOD)
    (hlen : ts.length < U64MOD) :
    0 ≤ (applyTrades ts).vwap ∧
    (applyTrades ts).total_volume = tapeVolume ts ∧
    (applyTrades ts).trade_count = ts.length ∧
    (applyTrades ts).vwap.toNat * (applyTrades ts).total_volume ≤
      tapeValue ts := by
  have h := vwap_fold ts MarketStatistics.init 0 0 0
    (by decide) (by decide) (by decide) rfl rfl hall
    (by omega) (by omega) (by omega)
  exact ⟨h.1, by simpa [applyTrades] using h.2.2.2.1,
         by simpa [applyTrades] using h.2.2.2.2,
         by simpa [applyTrades] using h.2.2.1⟩

/-- Witness for C6 at a concrete input: on the tape (3 x 2), (4 x 3) the
bound `vwap * total_volume <= 18` holds (the computed product is 15). -/
theorem claim6_witness :
    0 ≤ (applyTrades [(3, 2), (4, 3)]).vwap ∧
    (applyTrades [(3, 2), (4, 3)]).total_volume = tapeVolume [(3, 2), (4, 3)] ∧
    (applyTrades [(3, 2), (4, 3)]).trade_count = 2 ∧
    (applyTrades [(3, 2), (4, 3)]).vwap.toNat *
      (applyTrades [(3, 2), (4, 3)]).total_volume ≤ tapeValue [(3, 2), (4, 3)] :=
  claim6_vwap_bound [(3, 2), (4, 3)] (by decide) (by decide) (by decide)
    (by decide)

/-- Counterexample to C6 as stated: on the tape (3 x 1), (0 x 2), (2 x 3),
(0 x 1) the computed VWAP collapses to 0 while the true traded value is 9
over volume 7, so `vwap * total_volume` misses `sum(price_i * qty_i)` by
9 — far more than one unit of least precision; and on the single trade
(2^62 x 8) the 64-bit numerator wraps (2^65 mod 2^64 = 0), making the
computed VWAP 0 instead of 2^62, so the intermediate arithmetic does
overflow 64 bits. -/
theorem claim6_counterexample :
    ((applyTrades driftTape).vwap = 0 ∧
     (applyTrades driftTape).total_volume = 7 ∧
     tapeValue driftTape = 9 ∧
     ¬ (tapeValue driftTape -
        (applyTrades driftTape).vwap.toNat * (applyTrades driftTape).total_volume ≤ 1)) ∧
    ((applyTrades overflowTape).vwap = 0 ∧
     (applyTrades overflowTape).total_volume = 8 ∧
     tapeValue overflowTape = 2 ^ 65) := by
  refine ⟨⟨by decide, by decide, by decide, by decide⟩,
          by decide, by decide, by decide⟩

theorem accum_foldl (ls : List OrderBookLevel) (a : Nat) :
    ls.foldl (fun s lv => (s + lv.quantity) % U64MOD) (a % U64MOD) =
      (a + qtySum ls) % U64MOD := by
  induction ls generalizing a with
  | nil => simp [qtySum]
  | cons lv rest ih =>
    simp only [List.foldl_cons, qtySum, List.map_cons, List.sum_cons]
    rw [Nat.mod_add_mod, ih (a + lv.quantity), Nat.add_assoc]
    simp [qtySum]

theorem accumulateQty_eq (ls : List OrderBookLevel) :
    accumulateQty ls = qtySum ls % U64MOD := by
  unfold accumulateQty
  have h0 : (0 : Nat) = 0 % U64MOD := rfl
  rw [h0, accum_foldl, Nat.zero_add]

/-- C5 (amended): `get_imbalance` returns 0 when either top-5 side is
empty or the (wrapped) total volume is 0; when the top-5 bid volume
dominates it returns the intended ratio, which lies in [0, 1]; but when
the top-5 ask volume exceeds the top-5 bid volume the `uint64_t`
subtraction `bid_volume - ask_volume` wraps modulo `2^64`, and the result
is `(2^64 - (A - B)) / (B + A)`, which is strictly greater than 1 — the
claimed containment in [-1, 1] fails. -/
theorem claim5_imbalance (b : OrderBook) :
    (b.get_bids 5 = [] ∨ b.get_asks 5 = [] → b.get_imbalance = 0) ∧
    (qtySum (b.get_bids 5) + qtySum (b.get_asks 5) = 0 →
      b.get_imbalance = 0) ∧
    (b.get_bids 5 ≠ [] → b.get_asks 5 ≠ [] →
      qtySum (b.get_bids 5) + qtySum (b.get_asks 5) < U64MOD →
      qtySum (b.get_asks 5) ≤ qtySum (b.get_bids 5) →
      0 < qtySum (b.get_bids 5) + qtySum (b.get_asks 5) →
      b.get_imbalance =
        ((qtySum (b.get_bids 5) - qtySum (b.get_asks 5) : Nat) : ℚ) /
          ((qtySum (b.get_bids 5) + qtySum (b.get_asks 5) : Nat) : ℚ) ∧
      0 ≤ b.get_imbalance ∧ b.get_imbalance ≤ 1) ∧
    (b.get_bids 5 ≠ [] → b.get_asks 5 ≠ [] →
      qtySum (b.get_bids 5) + qtySum (b.get_asks 5) < 2 ^ 63 →
      qtySum (b.get_bids 5) < qtySum (b.get_asks 5) →
      b.get_imbalance =
        ((U64MOD - (qtySum (b.get_asks 5) - qtySum (b.get_bids 5)) : Nat) : ℚ) /
          ((qtySum (b.get_bids 5) + qtySum (b.get_asks 5) : Nat) : ℚ) ∧
      1 < b.get_imbalance) := by
  set B := qtySum (b.get_bids 5) with hB
  set A := qtySum (b.get_asks 5) with hA
  refine ⟨?_, ?_, ?_, ?_⟩
  · intro h
    simp [OrderBook.get_imbalance, h]
  · intro h
    by_cases hemp : b.get_bids 5 = [] ∨ b.get_asks 5 = []
    · simp [OrderBook.get_imbalance, hemp]
    · have hB0 : B = 0 := by omega
      have hA0 : A = 0 := by omega
      simp only [OrderBook.get_imbalance, if_neg hemp, accumulateQty_eq,
        ← hB, ← hA, hB0, hA0]
      norm_num
  · intro hb ha hlt hle hpos
    have hBlt : B < U64MOD := by omega
    have hAlt : A < U64MOD := by omega
    have hemp : ¬ (b.get_bids 5 = [] ∨ b.get_asks 5 = []) := by
      simp [hb, ha]
    have hBm : B % U64MOD = B := Nat.mod_eq_of_lt hBlt
    have hAm : A % U64MOD = A := Nat.mod_eq_of_lt hAlt
    have htm : (B + A) % U64MOD = B + A := Nat.mod_eq_of_lt hlt
    have hnum : (B + U64MOD - A) % U64MOD = B - A := by
      have h1 : B + U64MOD - A = (B - A) + U64MOD := by omega
      rw [h1, Nat.add_mod_right]
      exact Nat.mod_eq_of_lt (by omega)
    have heq : b.get_imbalance = ((B - A : Nat) : ℚ) / ((B + A : Nat) : ℚ) := by
      simp only [OrderBook.get_imbalance, if_neg hemp, accumulateQty_eq,
        ← hB, ← hA, hBm, hAm, htm, hnum]
      rw [if_neg (by omega), Rat.mkRat_eq_divInt, Rat.divInt_eq_div]
      push_cast
      ring
    refine ⟨heq, ?_, ?_⟩
    · rw [heq]
      positivity
    · rw [heq]
      rw [div_le_one (by exact_mod_cast hpos)]
      exact_mod_cast Nat.sub_le_iff_le_add.2 (by omega)
  · intro hb ha hlt hgt
    have hU : (2 : Nat) ^ 63 < U64MOD := by norm_num [U64MOD]
    have hemp : ¬ (b.get_bids 5 = [] ∨ b.get_asks 5 = []) := by
      simp [hb, ha]
    have hBm : B % U64MOD = B := Nat.mod_eq_of_lt (by norm_num [U64MOD]; omega)
    have hAm : A % U64MOD = A := Nat.mod_eq_of_lt (by norm_num [U64MOD]; omega)
    have htm : (B + A) % U64MOD = B + A :=
      Nat.mod_eq_of_lt (by norm_num [U64MOD]; omega)
    have hnum : (B + U64MOD - A) % U64MOD = U64MOD - (A - B) := by
      have h1 : B + U64MOD - A = U64MOD - (A - B) := by omega
      rw [h1]
      exact Nat.mod_eq_of_lt (by omega)
    have heq : b.get_imbalance =
        ((U64MOD - (A - B) : Nat) : ℚ) / ((B + A : Nat) : ℚ) := by
      simp only [OrderBook.get_imbalance, if_neg hemp, accumulateQty_eq,
        ← hB, ← hA, hBm, hAm, htm, hnum]
      rw [if_neg (by omega), Rat.mkRat_eq_divInt, Rat.divInt_eq_div]
      push_cast
      ring
    refine ⟨heq, ?_⟩
    rw [heq]
    rw [one_lt_div (by exact_mod_cast (by omega : 0 < B + A))]
    have hkey : B + A < U64MOD - (A - B) := by
      have h64 : U64MOD = 2 * 2 ^ 63 := by norm_num [U64MOD]
      omega
    exact_mod_cast hkey

/-- Witness for C5 at a concrete input: scenario 3 (five bids of 1000,
five asks of 500) gives an imbalance inside [0, 1]. -/
theorem claim5_witness :
    0 ≤ depthBook.get_imbalance ∧ depthBook.get_imbalance ≤ 1 := by
  have h := (claim5_imbalance depthBook).2.2.1 (by decide) (by decide)
    (by decide) (by decide) (by decide)
  exact ⟨h.2.1, h.2.2⟩

/-- Counterexample to C5 as stated: with five bid levels of 500 and five
ask levels of 1000 the unsigned subtraction wraps and `get_imbalance`
returns a value strictly greater than 1, outside the claimed [-1, 1]. -/
theorem claim5_counterexample :
    qtySum (imbalanceBook.get_bids 5) = 2500 ∧
    qtySum (imbalanceBook.get_asks 5) = 5000 ∧
    1 < imbalanceBook.get_imbalance := by
  refine ⟨by decide, by decide, by decide⟩

theorem size_mod_reduce {S h t : Nat} (hdvd : S ∣ U64MOD) (hS : 0 < S)
    (hh : h < S) (ht : t < S) :
    ((t + U64MOD - h) % U64MOD) % S = if h ≤ t then t - h else t + S - h := by
  obtain ⟨m, hm⟩ := hdvd
  have hU : 0 < U64MOD := by norm_num [U64MOD]
  have hm0 : 0 < m := by
    rcases Nat.eq_zero_or_pos m with h0 | h0
    · rw [h0, Nat.mul_zero] at hm
      omega
    · exact h0
  have hsplit : U64MOD = S + S * (m - 1) := by
    calc U64MOD = S * m := hm
    _ = S * (1 + (m - 1)) := by rw [Nat.add_sub_cancel' hm0]
    _ = S + S * (m - 1) := by rw [Nat.mul_add, Nat.mul_one]
  rw [Nat.mod_mod_of_dvd _ ⟨m, hm⟩]
  have h1 : t + U64MOD - h = (t + S - h) + S * (m - 1) := by omega
  rw [h1, Nat.add_mul_mod_self_left]
  by_cases hht : h ≤ t
  · have h2 : t + S - h = (t - h) + S := by omega
    rw [if_pos hht, h2, Nat.add_mod_right]
    exact Nat.mod_eq_of_lt (by omega)
  · rw [if_neg hht]
    exact Nat.mod_eq_of_lt (by omega)

/-- C7: for the power-of-two ring queue, `size()` is `(tail - head) mod
capacity`; `try_push` fails exactly when `size() == capacity - 1` (one
slot reserved); a rejected `MarketDataQueue::enqueue` bumps the drop
counter by exactly one while an accepted one leaves it unchanged; and the
literal capacity-8 scenario holds: 7 pushes succeed, the 8th fails with
the drop counter at 1, one pop reopens exactly one slot, and the next
push succeeds with the drop counter still 1. -/
theorem claim7_queue (k : Nat) (hk1 : 1 ≤ k) (hk2 : k ≤ 64) (α : Type)
    (q : MarketDataQueue α (2 ^ k)) (item : α)
    (hh : q.queue.head < 2 ^ k) (ht : q.queue.tail < 2 ^ k)
    (hd : q.dropped_messages + 1 < U64MOD) :
    ((q.queue.size : Int) =
      ((q.queue.tail : Int) - (q.queue.head : Int)) % ((2 ^ k : Nat) : Int)) ∧
    ((q.queue.try_push item).1 = false ↔ q.queue.size = 2 ^ k - 1) ∧
    ((q.enqueue item).1 = false →
      (q.enqueue item).2.dropped_messages = q.dropped_messages + 1) ∧
    ((q.enqueue item).1 = true →
      (q.enqueue item).2.dropped_messages = q.dropped_messages) ∧
    ((pushAll queue8 (List.replicate 7 ())).1 = List.replicate 7 true ∧
     ((pushAll queue8 (List.replicate 7 ())).2.enqueue ()).1 = false ∧
     ((pushAll queue8 (List.replicate 7 ())).2.enqueue ()).2.dropped_messages = 1 ∧
     ((((pushAll queue8 (List.replicate 7 ())).2.enqueue ()).2.dequeue).1).isSome = true ∧
     ((((pushAll queue8 (List.replicate 7 ())).2.enqueue ()).2.dequeue).2.enqueue ()).1 = true ∧
     ((((pushAll queue8 (List.replicate 7 ())).2.enqueue ()).2.dequeue).2.enqueue ()).2.dropped_messages = 1) := by
  have hdvd : (2 : Nat) ^ k ∣ U64MOD := by
    simpa [U64MOD] using pow_dvd_pow 2 hk2
  have hS0 : 0 < (2 : Nat) ^ k := Nat.pos_pow_of_pos k (by omega)
  have hS2 : 2 ≤ (2 : Nat) ^ k := by
    calc (2 : Nat) = 2 ^ 1 := by norm_num
    _ ≤ 2 ^ k := Nat.pow_le_pow_right (by omega) hk1
  have hsize : q.queue.size = if q.queue.head ≤ q.queue.tail
      then q.queue.tail - q.queue.head
      else q.queue.tail + 2 ^ k - q.queue.head := by
    unfold SPSCQueue.size
    exact size_mod_reduce hdvd hS0 hh ht
  refine ⟨?_, ?_, ?_, ?_, ?_⟩
  · rw [hsize]
    by_cases hht : q.queue.head ≤ q.queue.tail
    · rw [if_pos hht, Nat.cast_sub hht]
      have h1 : (0 : ℤ) ≤ (q.queue.tail : Int) - q.queue.head := by
        have hc : (q.queue.head : Int) ≤ q.queue.tail := by exact_mod_cast hht
        omega
      have h2 : (q.queue.tail : Int) - q.queue.head < ((2 ^ k : Nat) : Int) := by
        have hc : (q.queue.tail : Int) < ((2 ^ k : Nat) : Int) := by exact_mod_cast ht
        have h0 : (0 : ℤ) ≤ (q.queue.head : Int) := Int.natCast_nonneg _
        omega
      exact (Int.emod_eq_of_lt h1 h2).symm
    · push_neg at hht
      rw [if_neg (by omega)]
      have hle : q.queue.head ≤ q.queue.tail + 2 ^ k := by omega
      have h1 : (0 : ℤ) ≤ (q.queue.tail : Int) + ((2 ^ k : Nat) : Int) - q.queue.head := by
        have hhi : (q.queue.head : Int) < ((2 ^ k : Nat) : Int) := by exact_mod_cast hh
        have ht0 : (0 : ℤ) ≤ (q.queue.tail : Int) := Int.natCast_nonneg _
        omega
      have h2 : (q.queue.tail : Int) + ((2 ^ k : Nat) : Int) - q.queue.head <
          ((2 ^ k : Nat) : Int) := by
        have hti : (q.queue.tail : Int) < (q.queue.head : Int) := by exact_mod_cast hht
        omega
      have hrhs : ((q.queue.tail : Int) - q.queue.head) % ((2 ^ k : Nat) : Int) =
          (q.queue.tail : Int) + ((2 ^ k : Nat) : Int) - q.queue.head := by
        have heq2 : (q.queue.tail : Int) - q.queue.head =
            ((q.queue.tail : Int) + ((2 ^ k : Nat) : Int) - q.queue.head) +
              ((2 ^ k : Nat) : Int) * (-1) := by ring
        rw [heq2, Int.add_mul_emod_self_left]
        exact Int.emod_eq_of_lt h1 h2
      rw [hrhs, Nat.cast_sub hle]
      push_cast
      ring
  · have hcond : ((q.queue.tail + 1) % 2 ^ k = q.queue.head) ↔
        q.queue.size = 2 ^ k - 1 := by
      rw [hsize]
      by_cases hts : q.queue.tail + 1 = 2 ^ k
      · rw [hts, Nat.mod_self]
        by_cases hht : q.queue.head ≤ q.queue.tail
        · rw [if_pos hht]
          omega
        · rw [if_neg hht]
          omega
      · rw [Nat.mod_eq_of_lt (by omega)]
        by_cases hht : q.queue.head ≤ q.queue.tail
        · rw [if_pos hht]
          omega
        · rw [if_neg hht]
          omega
    constructor
    · intro hfail
      unfold SPSCQueue.try_push at hfail
      by_cases hc : (q.queue.tail + 1) % 2 ^ k = q.queue.head
      · exact hcond.1 hc
      · rw [if_neg hc] at hfail
        simp at hfail
    · intro hsz
      unfold SPSCQueue.try_push
      rw [if_pos (hcond.2 hsz)]
  · intro hfail
    unfold MarketDataQueue.enqueue at hfail ⊢
    cases hp : q.queue.try_push item with
    | mk r qq =>
      cases r
      · exact Nat.mod_eq_of_lt hd
      · rw [hp] at hfail
        simp at hfail
  · intro hok
    unfold MarketDataQueue.enqueue at hok ⊢
    cases hp : q.queue.try_push item with
    | mk r qq =>
      cases r
      · rw [hp] at hok
        simp at hok
      · rfl
  · exact ⟨by decide, by decide, by decide, by decide, by decide, by decide⟩

/-- Witness for C7 at a concrete input: the empty capacity-8 queue has
size `(0 - 0) mod 8`. -/
theorem claim7_witness :
    (queue8.queue.size : Int) =
      ((queue8.queue.tail : Int) - (queue8.queue.head : Int)) %
        ((2 ^ 3 : Nat) : Int) :=
  (claim7_queue 3 (by decide) (by decide) Unit queue8 ()
    (by decide) (by decide) (by decide)).1
